import Mathlib

/-!
# Verification of the `dns-server` wire codec, zone store and dispatcher

A shallow embedding, in Lean 4, of the Go sources under
`dns-server/` (package `dns`: `parser.go`, `types.go`, the builder and the
zone store, plus `cmd/dns-server/main.go`), together with proofs and
refutations of the specified properties.

Modelling conventions:
* Go strings and byte slices are both modelled as `List Nat` (byte values);
  `string(bytes)` conversions in Go are then the identity, exactly as on the
  wire.  ASCII case folding models `strings.ToLower` / `ToUpper` (every name
  that the server handles is ASCII on the wire).
* Machine integers are `Nat` with explicit `% 2^w` at the points where Go
  performs a conversion (`uint16(...)`, `byte(...)`, `uint32` arithmetic).
* The recursion in `parseName` (which in Go is unbounded: a compression
  pointer re-enters the function) is modelled with an explicit fuel
  parameter, decremented on every step; `PRes.fuel` marks fuel exhaustion.
  A computation that yields `.fuel` for every fuel amount corresponds to a
  non-terminating run of the Go code.
* Go maps keyed by strings are modelled as association lists; only
  key-lookup and key-update are used by the code, so iteration order is
  irrelevant.
* Byte access in the parser is modelled with `List.getD` and is performed
  only behind the same bounds checks the Go code makes, mirroring
  `parser.go` line by line.
-/

namespace DnsGo

/-- Go strings and byte slices, as byte lists. -/
abbrev GoStr := List Nat

/-- Bytes of a Lean string literal (ASCII), for readable concrete inputs. -/
def s2b (s : String) : GoStr := s.data.map Char.toNat

/-- ASCII lowercase of one byte (`strings.ToLower`, ASCII fragment). -/
def lowerByte (b : Nat) : Nat := if 65 ≤ b ∧ b ≤ 90 then b + 32 else b

/-- ASCII uppercase of one byte (`strings.ToUpper`, ASCII fragment). -/
def upperByte (b : Nat) : Nat := if 97 ≤ b ∧ b ≤ 122 then b - 32 else b

/-- `strings.ToLower` (ASCII fragment). -/
def toLowerB (s : GoStr) : GoStr := s.map lowerByte

/-- `strings.ToUpper` (ASCII fragment). -/
def toUpperB (s : GoStr) : GoStr := s.map upperByte

/-- `strings.HasPrefix`. -/
def hasPrefixB (s pre : GoStr) : Bool := pre.isPrefixOf s

/-- `strings.HasSuffix`. -/
def hasSuffixB (s suf : GoStr) : Bool := suf.reverse.isPrefixOf s.reverse

/-- `strings.TrimPrefix`. -/
def trimPrefixB (s pre : GoStr) : GoStr :=
  if hasPrefixB s pre then s.drop pre.length else s

/-- `strings.TrimSuffix`. -/
def trimSuffixB (s suf : GoStr) : GoStr :=
  if hasSuffixB s suf then s.take (s.length - suf.length) else s

/-- ASCII whitespace, the bytes `unicode.IsSpace` accepts in ASCII. -/
def isWS (b : Nat) : Bool := b = 32 ∨ (9 ≤ b ∧ b ≤ 13)

/-- `strings.TrimSpace` (ASCII fragment). -/
def trimSpaceB (s : GoStr) : GoStr :=
  ((s.dropWhile isWS).reverse.dropWhile isWS).reverse

/-- `strings.Fields`: split around runs of whitespace. -/
def fieldsB (s : GoStr) : List GoStr :=
  let step : Nat → GoStr × List GoStr → GoStr × List GoStr := fun b acc =>
    if isWS b then ([], if acc.1 = [] then acc.2 else acc.1 :: acc.2)
    else (b :: acc.1, acc.2)
  let r := s.foldr step ([], [])
  if r.1 = [] then r.2 else r.1 :: r.2

/-- `strings.Contains` with a single-byte needle. -/
def containsByte (s : GoStr) (b : Nat) : Bool := s.contains b

/-- `strings.Join(xs, ".")` / `strings.Split(s, ".")` building block. -/
def joinDots (xs : List GoStr) : GoStr := List.intercalate [46] xs

/-- `strings.Split(s, ".")`. -/
def splitDots (s : GoStr) : List GoStr := s.splitOn 46

/-- Decimal digits of a natural number, as ASCII bytes (`strconv.Itoa`
for non-negative input).  Fuelled to stay structurally recursive. -/
def decDigitsF : Nat → Nat → GoStr
  | 0, _ => []
  | f + 1, n => if n < 10 then [48 + n] else decDigitsF f (n / 10) ++ [48 + n % 10]

/-- `strconv.Itoa` for naturals. -/
def decDigits (n : Nat) : GoStr := decDigitsF (n + 1) n

/-! ## DNS data model (`types.go`) -/

/-- Record type codes, `types.go`. -/
def TypeA : Nat := 1
def TypeNS : Nat := 2
def TypeCNAME : Nat := 5
def TypeSOA : Nat := 6
def TypeMX : Nat := 15
def TypeTXT : Nat := 16
def TypeAAAA : Nat := 28

/-- `ClassIN`. -/
def ClassIN : Nat := 1

/-- Header flag masks, `types.go`. -/
def FlagQR : Nat := 32768
def FlagAA : Nat := 1024
def FlagTC : Nat := 512
def FlagRD : Nat := 256
def FlagRA : Nat := 128

/-- Response codes, `types.go`. -/
def RcodeNameError : Nat := 3
def RcodeRefused : Nat := 5

/-- `Header` struct. -/
structure Header where
  iD : Nat
  flags : Nat
  qdCount : Nat
  anCount : Nat
  nsCount : Nat
  arCount : Nat
  deriving Repr, DecidableEq

/-- `Question` struct. -/
structure Question where
  name : GoStr
  qtype : Nat
  qclass : Nat
  deriving Repr, DecidableEq

/-- `SOA` struct. -/
structure SOA where
  mName : GoStr
  rName : GoStr
  serial : Nat
  refresh : Nat
  retry : Nat
  expire : Nat
  minimum : Nat
  deriving Repr, DecidableEq

/-- `ResourceRecord` struct; Go zero values are `[]`, `0`, `none`. -/
structure ResourceRecord where
  name : GoStr := []
  rtype : Nat := 0
  rclass : Nat := 0
  ttl : Nat := 0
  rdLength : Nat := 0
  rData : List Nat := []
  address : List Nat := []
  target : GoStr := []
  priority : Nat := 0
  text : List GoStr := []
  soaData : Option SOA := none
  deriving Repr, DecidableEq

instance : Inhabited ResourceRecord := ⟨{}⟩

/-- `Message` struct. -/
structure Message where
  header : Header
  questions : List Question
  answers : List ResourceRecord
  authority : List ResourceRecord
  additional : List ResourceRecord
  deriving Repr, DecidableEq

/-- `StringToType` (`types.go`): byte-string record-type token to code. -/
def StringToType (s : GoStr) : Nat :=
  if s = s2b "A" then TypeA
  else if s = s2b "AAAA" then TypeAAAA
  else if s = s2b "CNAME" then TypeCNAME
  else if s = s2b "MX" then TypeMX
  else if s = s2b "NS" then TypeNS
  else if s = s2b "TXT" then TypeTXT
  else if s = s2b "SOA" then TypeSOA
  else 0

/-! ## Parser (`parser.go`) -/

/-- Result of a fuelled parsing computation: success, Go error, or fuel
exhaustion (the Go code would still be running). -/
inductive PRes (α : Type) where
  | ok : α → PRes α
  | err : String → PRes α
  | fuel : PRes α
  deriving Repr, DecidableEq

/-- Byte access; used only behind the bounds checks the Go code makes. -/
def byteAt (data : List Nat) (i : Nat) : Nat := data.getD i 0

/-- `binary.BigEndian.Uint16(data[i:i+2])`. -/
def readU16 (data : List Nat) (i : Nat) : Nat :=
  byteAt data i * 256 + byteAt data (i + 1)

/-- `binary.BigEndian.Uint32(data[i:i+4])`. -/
def readU32 (data : List Nat) (i : Nat) : Nat :=
  ((byteAt data i * 256 + byteAt data (i + 1)) * 256 + byteAt data (i + 2)) * 256
    + byteAt data (i + 3)

/-- `data[i : i+n]`. -/
def sliceB (data : List Nat) (i n : Nat) : List Nat := (data.drop i).take n

/-- `parseName` (`parser.go:153-212`).  `labels` and `visited` are this
invocation's accumulated labels and visited-offset set; the recursive call
made for a compression pointer re-enters with *fresh* `labels` and
`visited`, exactly as the Go code calls `p.parseName()` (which allocates a
new `visited` map).  Fuel is consumed on every step; the Go code has no
fuel bound, so a run that exhausts every fuel amount is a run that does
not terminate. -/
def parseName : Nat → List Nat → List GoStr → List Nat → Nat → PRes (GoStr × Nat)
  | 0, _, _, _, _ => .fuel
  | f + 1, data, labels, visited, pos =>
    if pos ≥ data.length then .err "name extends past data"
    else
      let length := byteAt data pos
      if length &&& 192 = 192 then
        if pos + 1 ≥ data.length then .err "invalid compression pointer"
        else
          let offset := readU16 data pos &&& 16383
          let pos2 := pos + 2
          if offset ∈ visited then .err "compression loop detected"
          else
            match parseName f data [] [] offset with
            | .ok (rest, _) =>
                if labels = [] then .ok (rest, pos2)
                else .ok (joinDots labels ++ [46] ++ rest, pos2)
            | .err e => .err e
            | .fuel => .fuel
      else if length = 0 then .ok (joinDots labels, pos + 1)
      else
        let pos2 := pos + 1
        if pos2 + length > data.length then .err "label extends past data"
        else parseName f data (labels ++ [sliceB data pos2 length]) visited (pos2 + length)

/-- `parseTXT` (`parser.go:214-231`), fuelled; the loop consumes at least
one byte per iteration, so `data.length` fuel is always enough. -/
def parseTXTF : Nat → List Nat → Nat → List GoStr
  | 0, _, _ => []
  | f + 1, data, pos =>
    if pos < data.length then
      let length := byteAt data pos
      let pos1 := pos + 1
      if pos1 + length > data.length then []
      else sliceB data pos1 length :: parseTXTF f data (pos1 + length)
    else []

/-- `parseTXT` entry point. -/
def parseTXT (data : List Nat) : List GoStr := parseTXTF (data.length + 1) data 0

/-- `parseHeader` (`parser.go:65-79`); returns the header, cursor moves to 12. -/
def parseHeaderGo (data : List Nat) : PRes Header :=
  if data.length < 12 then .err "header too short"
  else .ok {
    iD := readU16 data 0
    flags := readU16 data 2
    qdCount := readU16 data 4
    anCount := readU16 data 6
    nsCount := readU16 data 8
    arCount := readU16 data 10 }

/-- `parseQuestion` (`parser.go:81-97`). -/
def parseQuestionGo (f : Nat) (data : List Nat) (pos : Nat) : PRes (Question × Nat) :=
  match parseName f data [] [] pos with
  | .ok (name, pos1) =>
      if pos1 + 4 > data.length then .err "question too short"
      else .ok ({ name := name, qtype := readU16 data pos1,
                  qclass := readU16 data (pos1 + 2) }, pos1 + 4)
  | .err e => .err e
  | .fuel => .fuel

/-- `parseResourceRecord` (`parser.go:99-150`).  Type-specific name parses
discard their error (`rr.Target, _ = p.parseName()`), but if the Go code
would not terminate inside them, neither does the whole parse. -/
def parseResourceRecordGo (f : Nat) (data : List Nat) (pos : Nat) :
    PRes (ResourceRecord × Nat) :=
  match parseName f data [] [] pos with
  | .err e => .err e
  | .fuel => .fuel
  | .ok (name, pos1) =>
    if pos1 + 10 > data.length then .err "resource record too short"
    else
      let rtype := readU16 data pos1
      let rclass := readU16 data (pos1 + 2)
      let ttl := readU32 data (pos1 + 4)
      let rdLength := readU16 data (pos1 + 8)
      let pos2 := pos1 + 10
      if pos2 + rdLength > data.length then .err "rdata too short"
      else
        let rData := sliceB data pos2 rdLength
        let rr : ResourceRecord :=
          { name := name, rtype := rtype, rclass := rclass, ttl := ttl,
            rdLength := rdLength, rData := rData }
        if rtype = TypeA then
          .ok (if rdLength = 4 then { rr with address := rData } else rr, pos2 + rdLength)
        else if rtype = TypeAAAA then
          .ok (if rdLength = 16 then { rr with address := rData } else rr, pos2 + rdLength)
        else if rtype = TypeCNAME ∨ rtype = TypeNS then
          match parseName f data [] [] pos2 with
          | .ok (t, _) => .ok ({ rr with target := t }, pos2 + rdLength)
          | .err _ => .ok (rr, pos2 + rdLength)
          | .fuel => .fuel
        else if rtype = TypeMX then
          if rdLength ≥ 2 then
            let priority := readU16 data pos2
            match parseName f data [] [] (pos2 + 2) with
            | .ok (t, _) =>
                .ok ({ rr with priority := priority, target := t }, pos2 + rdLength)
            | .err _ => .ok ({ rr with priority := priority }, pos2 + rdLength)
            | .fuel => .fuel
          else .ok (rr, pos2 + rdLength)
        else if rtype = TypeTXT then
          .ok ({ rr with text := parseTXT rData }, pos2 + rdLength)
        else .ok (rr, pos2 + rdLength)

/-- One parsing loop of `Parse`: `count` entries, threading the cursor. -/
def parseListGo {α : Type} (step : Nat → PRes (α × Nat)) :
    Nat → Nat → PRes (List α × Nat)
  | 0, pos => .ok ([], pos)
  | n + 1, pos =>
    match step pos with
    | .ok (a, pos1) =>
      match parseListGo step n pos1 with
      | .ok (as, pos2) => .ok (a :: as, pos2)
      | .err e => .err e
      | .fuel => .fuel
    | .err e => .err e
    | .fuel => .fuel

/-- `Parser.Parse` (`parser.go:22-63`), fuelled through `parseName`. -/
def ParseF (f : Nat) (data : List Nat) : PRes Message :=
  match parseHeaderGo data with
  | .err e => .err e
  | .fuel => .fuel
  | .ok h =>
    match parseListGo (parseQuestionGo f data) h.qdCount 12 with
    | .err e => .err e
    | .fuel => .fuel
    | .ok (qs, pos1) =>
      match parseListGo (parseResourceRecordGo f data) h.anCount pos1 with
      | .err e => .err e
      | .fuel => .fuel
      | .ok (ans, pos2) =>
        match parseListGo (parseResourceRecordGo f data) h.nsCount pos2 with
        | .err e => .err e
        | .fuel => .fuel
        | .ok (auth, pos3) =>
          match parseListGo (parseResourceRecordGo f data) h.arCount pos3 with
          | .err e => .err e
          | .fuel => .fuel
          | .ok (add, _) =>
            .ok { header := h, questions := qs, answers := ans,
                  authority := auth, additional := add }

/-! ## Builder (`builder.go`) -/

/-- `binary.BigEndian.PutUint16` of `uint16(v)`. -/
def u16be (v : Nat) : List Nat := [v / 256 % 256, v % 256]

/-- `binary.BigEndian.PutUint32` of `uint32(v)`. -/
def u32be (v : Nat) : List Nat :=
  [v / 16777216 % 256, v / 65536 % 256, v / 256 % 256, v % 256]

/-- The IPv4-in-IPv6 prefix used by `net.IP` for 4-byte addresses. -/
def v4InV6Prefix : List Nat := [0, 0, 0, 0, 0, 0, 0, 0, 0, 0, 255, 255]

/-- `net.IP.To4`: the 4-byte form, or `nil` (modelled `[]`). -/
def ipTo4 (ip : List Nat) : List Nat :=
  if ip.length = 4 then ip
  else if ip.length = 16 ∧ ip.take 12 = v4InV6Prefix then ip.drop 12
  else []

/-- `net.IP.To16`: the 16-byte form, or `nil` (modelled `[]`). -/
def ipTo16 (ip : List Nat) : List Nat :=
  if ip.length = 16 then ip
  else if ip.length = 4 then v4InV6Prefix ++ ip
  else []

/-- `Builder.encodeName` (`builder.go`): uncompressed length-prefixed
labels, labels over 63 bytes truncated, zero-octet terminator. -/
def encodeName (name : GoStr) : List Nat :=
  if name = [] ∨ name = [46] then [0]
  else
    let name1 := trimSuffixB name [46]
    ((splitDots name1).map fun l =>
      let l1 := l.take 63
      l1.length :: l1).flatten ++ [0]

/-- `Builder.encodeTXT`: length-prefixed substrings, each truncated to 255. -/
def encodeTXT (texts : List GoStr) : List Nat :=
  (texts.map fun t =>
    let t1 := t.take 255
    t1.length :: t1).flatten

/-- `Builder.encodeSOA`. -/
def encodeSOA (soa : SOA) : List Nat :=
  encodeName soa.mName ++ encodeName soa.rName ++
    u32be soa.serial ++ u32be soa.refresh ++ u32be soa.retry ++
    u32be soa.expire ++ u32be soa.minimum

/-- `Builder.buildRData`. -/
def buildRData (rr : ResourceRecord) : List Nat :=
  if rr.rtype = TypeA then ipTo4 rr.address
  else if rr.rtype = TypeAAAA then ipTo16 rr.address
  else if rr.rtype = TypeCNAME ∨ rr.rtype = TypeNS then encodeName rr.target
  else if rr.rtype = TypeMX then u16be rr.priority ++ encodeName rr.target
  else if rr.rtype = TypeTXT then encodeTXT rr.text
  else if rr.rtype = TypeSOA then
    match rr.soaData with
    | some soa => encodeSOA soa
    | none => rr.rData
  else rr.rData

/-- `Builder.writeHeader`: the six big-endian 16-bit header fields. -/
def headerBytes (h : Header) : List Nat :=
  u16be h.iD ++ u16be h.flags ++ u16be h.qdCount ++ u16be h.anCount ++
    u16be h.nsCount ++ u16be h.arCount

/-- `Builder.writeQuestion`. -/
def questionBytes (q : Question) : List Nat :=
  encodeName q.name ++ u16be q.qtype ++ u16be q.qclass

/-- `Builder.writeResourceRecord`: name, type, class, TTL, RDLENGTH
computed from the built RDATA, then the RDATA. -/
def rrBytes (rr : ResourceRecord) : List Nat :=
  let rdata := buildRData rr
  encodeName rr.name ++ u16be rr.rtype ++ u16be rr.rclass ++ u32be rr.ttl ++
    u16be rdata.length ++ rdata

/-- The response header `BuildResponse` constructs (`builder.go`):
ID copied, flags `QR|AA` plus `RD` mirrored from the query, counts from
the slice lengths through `uint16(...)`. -/
def responseHeader (query : Message) (answers authority : List ResourceRecord) : Header :=
  let base := FlagQR ||| FlagAA
  { iD := query.header.iD
    flags := if query.header.flags &&& FlagRD ≠ 0 then base ||| FlagRD else base
    qdCount := query.questions.length % 65536
    anCount := answers.length % 65536
    nsCount := authority.length % 65536
    arCount := 0 }

/-- `Builder.BuildResponse` as the byte sequence it returns. -/
def BuildResponse (query : Message) (answers authority : List ResourceRecord) : List Nat :=
  headerBytes (responseHeader query answers authority) ++
    (query.questions.map questionBytes).flatten ++
    (answers.map rrBytes).flatten ++
    (authority.map rrBytes).flatten

/-! ## Zone store (`zone.go`) -/

/-- `Zone` struct: the `Records` map is modelled as an association list
(the Go code only looks keys up and updates them; iteration order is used
only by `HasName`, whose result is order-independent). -/
structure Zone where
  name : GoStr
  records : List (GoStr × List ResourceRecord)
  soa : Option SOA
  deriving Repr, DecidableEq

/-- Map lookup. -/
def mapFind : List (GoStr × α) → GoStr → Option α
  | [], _ => none
  | (k1, v) :: rest, k => if k1 = k then some v else mapFind rest k

/-- `Records[key] = append(Records[key], rr)` on the association list. -/
def mapAppend (m : List (GoStr × List ResourceRecord)) (k : GoStr)
    (rr : ResourceRecord) : List (GoStr × List ResourceRecord) :=
  match m with
  | [] => [(k, [rr])]
  | (k1, v) :: rest =>
      if k1 = k then (k1, v ++ [rr]) :: rest else (k1, v) :: mapAppend rest k rr

/-- `Zone.recordKey`: `lowercase(name) + ":" + decimal(type)`. -/
def recordKey (name : GoStr) (qtype : Nat) : GoStr :=
  toLowerB name ++ [58] ++ decDigits qtype

/-- `NewZone`. -/
def NewZone (name : GoStr) : Zone :=
  { name := toLowerB name, records := [], soa := none }

/-- `Zone.AddRecord`. -/
def AddRecord (z : Zone) (rr : ResourceRecord) : Zone :=
  { z with
    records := mapAppend z.records (recordKey rr.name rr.rtype) rr
    soa := if rr.rtype = TypeSOA ∧ rr.soaData.isSome then rr.soaData else z.soa }

/-- `Zone.Lookup`: direct probe, then CNAME fallback for A/AAAA. -/
def Lookup (z : Zone) (name : GoStr) (qtype : Nat) : List ResourceRecord :=
  let n := toLowerB name
  match mapFind z.records (recordKey n qtype) with
  | some records => records
  | none =>
    if qtype = TypeA ∨ qtype = TypeAAAA then
      match mapFind z.records (recordKey n TypeCNAME) with
      | some cnames => cnames
      | none => []
    else []

/-- `Zone.HasName`: any key begins with `lowercase(name) + ":"`. -/
def HasName (z : Zone) (name : GoStr) : Bool :=
  z.records.any fun kv => hasPrefixB kv.1 (toLowerB name ++ [58])

/-- `Zone.IsAuthoritative`. -/
def IsAuthoritative (z : Zone) (name : GoStr) : Bool :=
  let n := toLowerB name
  let zoneName := toLowerB z.name
  n = zoneName ∨ hasSuffixB n ([46] ++ zoneName)

/-! ## Zone-file loader (`zone.go`) -/

/-- ASCII decimal digit. -/
def isDigitB (b : Nat) : Bool := 48 ≤ b ∧ b ≤ 57

/-- Value of a digit string. -/
def digitsVal (s : GoStr) : Nat := s.foldl (fun acc b => acc * 10 + (b - 48)) 0

/-- `strconv.ParseUint(s, 10, bits)`: rejects empty and non-digit input
(syntax) and values at or above `2^bits` (range). -/
def parseUintGo (bits : Nat) (s : GoStr) : Except String Nat :=
  if s = [] ∨ ¬s.all isDigitB then .error "invalid syntax"
  else if digitsVal s < 2 ^ bits then .ok (digitsVal s) else .error "value out of range"

/-- `parseUint32` with its error discarded, as the SOA branch uses it:
`strconv.ParseUint` returns 0 on a syntax error and the max value on a
range error, and the Go code keeps that value. -/
def parseUint32Val (s : GoStr) : Nat :=
  if s = [] ∨ ¬s.all isDigitB then 0
  else if digitsVal s < 2 ^ 32 then digitsVal s else 2 ^ 32 - 1

/-- `parseTTL` (`zone.go`): optional case-insensitive `s/m/h/d/w` suffix,
decimal seconds value, 32-bit wrap-around multiply as in Go `uint32`. -/
def parseTTL (s : GoStr) : Except String Nat :=
  let s1 := toLowerB s
  let p : Nat × GoStr :=
    if hasSuffixB s1 (s2b "w") then (604800, s1.take (s1.length - 1))
    else if hasSuffixB s1 (s2b "d") then (86400, s1.take (s1.length - 1))
    else if hasSuffixB s1 (s2b "h") then (3600, s1.take (s1.length - 1))
    else if hasSuffixB s1 (s2b "m") then (60, s1.take (s1.length - 1))
    else if hasSuffixB s1 (s2b "s") then (1, s1.take (s1.length - 1))
    else (1, s1)
  match parseUintGo 32 p.2 with
  | .ok v => .ok (v * p.1 % 2 ^ 32)
  | .error e => .error e

/-- `isClass`. -/
def isClass (s : GoStr) : Bool := toUpperB s = s2b "IN" ∨ toUpperB s = s2b "CH"

/-- `isClassOrType`. -/
def isClassOrType (s : GoStr) : Bool := isClass s ∨ StringToType (toUpperB s) ≠ 0

/-- `isTTL`. -/
def isTTL (s : GoStr) : Bool :=
  match parseTTL s with
  | .ok _ => true
  | .error _ => false

/-- ASCII hex digit. -/
def isHexDigitB (b : Nat) : Bool :=
  isDigitB b ∨ (97 ≤ b ∧ b ≤ 102) ∨ (65 ≤ b ∧ b ≤ 70)

/-- Hex digit value. -/
def hexDigitVal (b : Nat) : Nat :=
  if isDigitB b then b - 48 else if 97 ≤ b then b - 87 else b - 55

/-- Value of a hex group. -/
def hexVal (s : GoStr) : Nat := s.foldl (fun acc b => acc * 16 + hexDigitVal b) 0

/-- One dotted-quad IPv4 field: 1-3 digits, no leading zero, at most 255. -/
def v4Field (s : GoStr) : Option Nat :=
  if s = [] ∨ ¬s.all isDigitB ∨ s.length > 3 then none
  else if s.length > 1 ∧ s.headI = 48 then none
  else if digitsVal s ≤ 255 then some (digitsVal s) else none

/-- One IPv6 hex group: 1-4 hex digits. -/
def v6Group (s : GoStr) : Option Nat :=
  if s ≠ [] ∧ s.length ≤ 4 ∧ s.all isHexDigitB then some (hexVal s) else none

/-- 16-bit groups to bytes. -/
def groupsToBytes (gs : List Nat) : List Nat :=
  (gs.map fun g => [g / 256 % 256, g % 256]).flatten

/-- Models `net.ParseIP` (Go standard library): dotted-quad IPv4 and
colon-separated IPv6 groups with at most one `::`; always yields the
16-byte internal form, `none` for `nil`.  IPv4-embedded IPv6 forms and
zone suffixes are not modelled (the repository never feeds them in). -/
def parseIPGo (s : GoStr) : Option (List Nat) :=
  if containsByte s 58 then
    -- IPv6
    let parts := s.splitOn 58
    if parts.all (· ≠ []) then
      if parts.length = 8 then
        (parts.mapM v6Group).map groupsToBytes
      else none
    else
      -- at most one "::"; normalise the empty-part patterns
      let core : Option (List GoStr × List GoStr) :=
        match parts with
        | [[], [], []] => some ([], [])                     -- "::"
        | [] :: [] :: rest => if rest.all (· ≠ []) then some ([], rest) else none
        | _ =>
          match parts.reverse with
          | [] :: [] :: restRev =>
              let front := restRev.reverse
              if front.all (· ≠ []) then some (front, []) else none
          | _ =>
            match parts.splitOnP (· = []) with
            | [front, back] =>
                if front ≠ [] ∧ back ≠ [] ∧ front.all (· ≠ []) ∧ back.all (· ≠ [])
                then some (front, back) else none
            | _ => none
      match core with
      | none => none
      | some (front, back) =>
        if front.length + back.length ≤ 7 then
          match front.mapM v6Group, back.mapM v6Group with
          | some f, some b =>
              some (groupsToBytes (f ++ List.replicate (8 - f.length - b.length) 0 ++ b))
          | _, _ => none
        else none
  else if containsByte s 46 then
    -- IPv4 dotted quad
    match (s.splitOn 46).mapM v4Field with
    | some [a, b, c, d] => some (v4InV6Prefix ++ [a, b, c, d])
    | _ => none
  else none

/-- `normalizeSOAName` (`zone.go`). -/
def normalizeSOAName (name origin : GoStr) : GoStr :=
  if name = s2b "@" then origin
  else if ¬hasSuffixB name [46] then name ++ [46] ++ origin
  else trimSuffixB name [46]

/-- `parseZoneLine` (`zone.go`): one record line, given the current origin,
the inherited owner name and the default TTL; returns the record and the
owner name the line determined (empty when inherited). -/
def parseZoneLine (line origin currentName : GoStr) (defaultTTL : Nat) :
    Except String (ResourceRecord × GoStr) :=
  let fields := fieldsB line
  if fields.length < 3 then .error "too few fields"
  else
    let field := fields.headI
    let nameIdx : GoStr × Nat :=
      if ¬isClassOrType field ∧ ¬isTTL field then
        (if field = s2b "@" then origin
         else if ¬hasSuffixB field [46] then field ++ [46] ++ origin
         else trimSuffixB field [46], 1)
      else (currentName, 0)
    let name := nameIdx.1
    let idx0 := nameIdx.2
    let ttlIdx : Nat × Nat :=
      if h : idx0 < fields.length then
        if isTTL fields[idx0] then
          (match parseTTL fields[idx0] with | .ok v => v | .error _ => 0, idx0 + 1)
        else (defaultTTL, idx0)
      else (defaultTTL, idx0)
    let ttl := ttlIdx.1
    let idx1 := ttlIdx.2
    let idx2 := if h : idx1 < fields.length then
        if isClass fields[idx1] then idx1 + 1 else idx1
      else idx1
    if h2 : idx2 ≥ fields.length then .error "missing type"
    else
      let rtype := StringToType (toUpperB fields[idx2])
      if rtype = 0 then .error "unknown type"
      else
        let idx := idx2 + 1
        if h3 : idx ≥ fields.length then .error "missing rdata"
        else
          let rest := fields.drop idx
          let rdata := List.intercalate [32] rest
          let rr : ResourceRecord :=
            { name := name, rtype := rtype, rclass := ClassIN, ttl := ttl }
          if rtype = TypeA then
            match parseIPGo rdata with
            | none => .error "invalid IPv4"
            | some ip =>
              if ipTo4 ip = [] then .error "invalid IPv4"
              else .ok ({ rr with address := ipTo4 ip }, name)
          else if rtype = TypeAAAA then
            match parseIPGo rdata with
            | none => .error "invalid IPv6"
            | some ip =>
              if ipTo16 ip = [] ∨ ipTo4 ip ≠ [] then .error "invalid IPv6"
              else .ok ({ rr with address := ipTo16 ip }, name)
          else if rtype = TypeCNAME ∨ rtype = TypeNS then
            let t0 := rest.headI
            let target :=
              if t0 = s2b "@" then origin
              else if ¬hasSuffixB t0 [46] then t0 ++ [46] ++ origin
              else trimSuffixB t0 [46]
            .ok ({ rr with target := target }, name)
          else if rtype = TypeMX then
            if idx + 1 ≥ fields.length then .error "MX needs priority and target"
            else
              match parseUintGo 16 rest.headI with
              | .error _ => .error "invalid MX priority"
              | .ok priority =>
                let t0 := (rest.drop 1).headI
                let target :=
                  if ¬hasSuffixB t0 [46] then t0 ++ [46] ++ origin
                  else trimSuffixB t0 [46]
                .ok ({ rr with priority := priority, target := target }, name)
          else if rtype = TypeTXT then
            let text := (rdata.dropWhile (· = 34)).reverse.dropWhile (· = 34) |>.reverse
            .ok ({ rr with text := [text] }, name)
          else -- TypeSOA
            if fields.length ≥ idx + 7 then
              let soa : SOA :=
                { mName := normalizeSOAName rest.headI origin
                  rName := normalizeSOAName (rest.drop 1).headI origin
                  serial := parseUint32Val (rest.drop 2).headI
                  refresh := match parseTTL (rest.drop 3).headI with
                             | .ok v => v | .error _ => 0
                  retry := match parseTTL (rest.drop 4).headI with
                           | .ok v => v | .error _ => 0
                  expire := match parseTTL (rest.drop 5).headI with
                            | .ok v => v | .error _ => 0
                  minimum := match parseTTL (rest.drop 6).headI with
                             | .ok v => v | .error _ => 0 }
              .ok ({ rr with soaData := some soa }, name)
            else .ok (rr, name)

/-- The inner skip of `LoadZoneFile` for a line containing `(`: consume
raw lines up to and including the first one containing `)`. -/
def dropParen : List GoStr → List GoStr
  | [] => []
  | l :: rest => if containsByte l 41 then rest else dropParen rest

/-- The `LoadZoneFile` scan loop (`zone.go`), fuelled; each iteration
consumes at least one line, so `lines.length + 1` fuel always suffices. -/
def loadLoopF : Nat → List GoStr → Option Zone → GoStr → Nat → GoStr →
    Except String (Option Zone)
  | 0, _, _, _, _, _ => .error "out of fuel"
  | _ + 1, [], zone, _, _, _ => .ok zone
  | f + 1, rawLine :: rest, zone, origin, defaultTTL, currentName =>
    let line := trimSpaceB rawLine
    if line = [] ∨ hasPrefixB line [59] then
      loadLoopF f rest zone origin defaultTTL currentName
    else if hasPrefixB line (s2b "$ORIGIN") then
      let origin1 := trimSuffixB (trimSpaceB (trimPrefixB line (s2b "$ORIGIN"))) [46]
      let zone1 := if zone = none then some (NewZone origin1) else zone
      loadLoopF f rest zone1 origin1 defaultTTL currentName
    else if hasPrefixB line (s2b "$TTL") then
      match parseTTL (trimSpaceB (trimPrefixB line (s2b "$TTL"))) with
      | .error _ => .error "invalid TTL"
      | .ok ttl => loadLoopF f rest zone origin ttl currentName
    else if containsByte line 40 then
      loadLoopF f (dropParen rest) zone origin defaultTTL currentName
    else
      match parseZoneLine line origin currentName defaultTTL with
      | .error _ => loadLoopF f rest zone origin defaultTTL currentName
      | .ok (rr, name) =>
        let currentName1 := if name ≠ [] then name else currentName
        let zone1 := match zone with
                     | none => NewZone origin
                     | some z => z
        loadLoopF f rest (some (AddRecord zone1 rr)) origin defaultTTL currentName1

/-- `LoadZoneFile` on the file's lines (I/O dropped): `none` models the
`nil` zone pointer Go can return. -/
def LoadZoneFile (lines : List GoStr) : Except String (Option Zone) :=
  loadLoopF (lines.length + 1) lines none [] 3600 []

/-! ## Query dispatcher (`cmd/dns-server/main.go`) -/

/-- `splitLabels` (`main.go:214-220`). -/
def splitLabels (name : GoStr) : List GoStr :=
  let n := trimSuffixB name [46]
  if n = [] then [] else n.splitOn 46

/-- `joinLabels` (`main.go:222-224`). -/
def joinLabels (labels : List GoStr) : GoStr := joinDots labels

/-- The probe loop of `findZone`: `for i := 0; i < len(labels); i++`,
probing `joinLabels(labels[i:])`. -/
def findZoneLoop (zones : List (GoStr × Zone)) : List GoStr → Option Zone
  | [] => none
  | l :: restLabels =>
    match mapFind zones (joinLabels (l :: restLabels)) with
    | some z => some z
    | none => findZoneLoop zones restLabels

/-- `Server.findZone` (`main.go:195-212`): lowercase, split into labels,
probe suffixes from most to least specific, first hit wins. -/
def findZone (zones : List (GoStr × Zone)) (name : GoStr) : Option Zone :=
  findZoneLoop zones (splitLabels (toLowerB name))

/-! ## Concurrency model for the shared `Builder`

`NewServer` allocates one `Builder`; every `handleQuery` goroutine calls
`s.builder.BuildResponse`, which truncates and appends to the shared
`b.data` slice.  We model the shared slice as one memory cell and a
`BuildResponse` run as the sequence of mutations it performs on it
(`b.data = b.data[:0]`, then one append per header/question/record written,
then the return that reads `b.data`).  This granularity is coarser than the
actual Go statements, so every interleaving expressible here is one the Go
scheduler can produce. -/

/-- One atomic action of a `BuildResponse` run on the shared `b.data`. -/
inductive BAct where
  | reset
  | app (chunk : List Nat)
  | ret
  deriving Repr, DecidableEq

/-- The chunks `BuildResponse` appends, in order. -/
def chunksOf (query : Message) (answers authority : List ResourceRecord) : List (List Nat) :=
  headerBytes (responseHeader query answers authority) ::
    (query.questions.map questionBytes ++ answers.map rrBytes ++ authority.map rrBytes)

/-- The action sequence of one `BuildResponse` invocation. -/
def progOf (query : Message) (answers authority : List ResourceRecord) : List BAct :=
  BAct.reset :: (chunksOf query answers authority).map BAct.app ++ [BAct.ret]

/-- Run two action sequences against the shared cell under a schedule
(`true` steps thread A, `false` steps thread B; steps of an exhausted
thread are no-ops).  Returns what each thread's `return b.data` observed. -/
def runSched : List Bool → List BAct → List BAct → List Nat →
    Option (List Nat) → Option (List Nat) → Option (List Nat) × Option (List Nat)
  | [], _, _, _, ra, rb => (ra, rb)
  | true :: s, [], b, d, ra, rb => runSched s [] b d ra rb
  | true :: s, .reset :: a, b, _, ra, rb => runSched s a b [] ra rb
  | true :: s, .app c :: a, b, d, ra, rb => runSched s a b (d ++ c) ra rb
  | true :: s, .ret :: a, b, d, _, rb => runSched s a b d (some d) rb
  | false :: s, a, [], d, ra, rb => runSched s a [] d ra rb
  | false :: s, a, .reset :: b, _, ra, rb => runSched s a b [] ra rb
  | false :: s, a, .app c :: b, d, ra, rb => runSched s a b (d ++ c) ra rb
  | false :: s, a, .ret :: b, d, ra, _ => runSched s a b d ra (some d)

/-! ## Spec-side definitions and concrete inputs used by the claims -/

/-- Spec-side: the probe sequence `findZone` is claimed to use, *without*
the final empty-string probe (the amended form). -/
def probeList (name : GoStr) : List GoStr :=
  let ls := splitLabels (toLowerB name)
  (List.range ls.length).map fun i => joinLabels (ls.drop i)

/-- Spec-side: first zone hit over an explicit probe sequence. -/
def firstHit (zones : List (GoStr × Zone)) : List GoStr → Option Zone
  | [] => none
  | p :: ps =>
    match mapFind zones p with
    | some z => some z
    | none => firstHit zones ps

/-- Spec-side: the probe sequence exactly as claimed, with the final
empty-string probe. -/
def claimProbes (name : GoStr) : List GoStr := probeList name ++ [[]]

/-- `.fuel` for every fuel amount: the Go run never returns. -/
def ParseDiverges (data : List Nat) : Prop := ∀ f, ParseF f data = .fuel

/-- A parse outcome that is not a successfully parsed message. -/
def notSuccess : PRes Message → Prop
  | .ok _ => False
  | .err _ => True
  | .fuel => True

/-- Well-formed dotted name for the builder round trip: no trailing dot,
labels nonempty and at most 63 bytes. -/
def wfName (n : GoStr) : Prop :=
  n.getLast? ≠ some 46 ∧ ∀ l ∈ splitDots n, l ≠ [] ∧ l.length ≤ 63

/-- Label sequence as emitted by `encodeName` before the terminator. -/
def encLabels (ls : List GoStr) : List Nat := (ls.map fun l => l.length :: l).flatten

/-- The payload comparison of claim C2, in its amended form: parsed-field
equality for A/AAAA/CNAME/NS/MX/TXT, byte-level RDATA equality (and no
parsed SOA fields) for SOA. -/
def payloadMatches (rr rr1 : ResourceRecord) : Prop :=
  ((rr.rtype = TypeA ∨ rr.rtype = TypeAAAA) → rr1.address = rr.address) ∧
  ((rr.rtype = TypeCNAME ∨ rr.rtype = TypeNS) → rr1.target = rr.target) ∧
  (rr.rtype = TypeMX → rr1.priority = rr.priority ∧ rr1.target = rr.target) ∧
  (rr.rtype = TypeTXT → rr1.text = rr.text) ∧
  (rr.rtype = TypeSOA → rr1.soaData = none ∧
    rr1.rData = (match rr.soaData with | some s => encodeSOA s | none => rr.rData))

/-- Well-formedness of a record's payload for the round trip, matching the
Go types (`uint16`/`uint32` fields) and valid wire names. -/
def wfRecord (rr : ResourceRecord) : Prop :=
  wfName rr.name ∧ rr.rtype < 65536 ∧ rr.rclass < 65536 ∧ rr.ttl < 4294967296 ∧
  (buildRData rr).length < 65536 ∧
  (rr.rtype = TypeA → rr.address.length = 4) ∧
  (rr.rtype = TypeAAAA → rr.address.length = 16) ∧
  ((rr.rtype = TypeCNAME ∨ rr.rtype = TypeNS ∨ rr.rtype = TypeMX) → wfName rr.target) ∧
  (rr.rtype = TypeMX → rr.priority < 65536) ∧
  (rr.rtype = TypeTXT → ∀ t ∈ rr.text, t.length ≤ 255)

/-- The empty query (`ID 0`, no flags, no questions) used to build a
response holding exactly one record. -/
def emptyQuery : Message :=
  { header := { iD := 0, flags := 0, qdCount := 0, anCount := 0, nsCount := 0, arCount := 0 },
    questions := [], answers := [], authority := [], additional := [] }

/-- Failure of an `Except` computation, as a boolean. -/
def exceptFailed : Except String Nat → Bool
  | .ok _ => false
  | .error _ => true

/-- A line of a loadable zone file makes `LoadZoneFile` fail exactly when
it survives the blank/comment and `$ORIGIN` guards, carries the `$TTL`
prefix and its argument is not a valid duration. -/
def badTTLLine (rawLine : GoStr) : Prop :=
  let line := trimSpaceB rawLine
  ¬(line = [] ∨ hasPrefixB line [59] = true) ∧
  ¬hasPrefixB line (s2b "$ORIGIN") = true ∧
  hasPrefixB line (s2b "$TTL") = true ∧
  exceptFailed (parseTTL (trimSpaceB (trimPrefixB line (s2b "$TTL")))) = true

instance (rawLine : GoStr) : Decidable (badTTLLine rawLine) := by
  unfold badTTLLine
  exact inferInstance

/-- A 14-byte message whose single question name is a compression pointer
to its own offset 12: bytes `00 00 00 00 00 01 00 00 00 00 00 00 C0 0C`. -/
def pointerLoopMsg : List Nat := [0, 0, 0, 0, 0, 1, 0, 0, 0, 0, 0, 0, 192, 12]

/-- Same self-pointing name, with the header declaring two questions. -/
def pointerLoopMsg2 : List Nat := [0, 0, 0, 0, 0, 2, 0, 0, 0, 0, 0, 0, 192, 12]

/-- A single A record under mixed-case owner `WWW`, after `$ORIGIN test.com.`. -/
def mixedCaseLines : List GoStr :=
  [s2b "$ORIGIN test.com.", s2b "WWW IN A 1.2.3.4"]

/-- A record line with no preceding `$ORIGIN`. -/
def noOriginLines : List GoStr := [s2b "www IN A 1.2.3.4"]

/-- The record `LoadZoneFile` stores for `noOriginLines`: owner `"www."`
qualified with the empty origin. -/
def noOriginRecord : ResourceRecord :=
  { name := s2b "www.", rtype := TypeA, rclass := 1, ttl := 3600, address := [1, 2, 3, 4] }

/-- A concrete CNAME record and the zone holding only it. -/
def cnameRec : ResourceRecord :=
  { name := s2b "www.example.com", rtype := TypeCNAME, rclass := 1, ttl := 3600,
    target := s2b "example.com" }

/-- Zone with only `cnameRec`. -/
def cnameZone : Zone := AddRecord (NewZone (s2b "example.com")) cnameRec

/-- A concrete SOA record, used to exhibit the SOA round-trip divergence. -/
def soaRec : ResourceRecord :=
  { name := s2b "a.b", rtype := TypeSOA, rclass := 1, ttl := 3600,
    soaData := some { mName := s2b "m.b", rName := s2b "r.b",
                      serial := 1, refresh := 2, retry := 3, expire := 4, minimum := 5 } }

/-- A concrete CNAME record for the round-trip witness. -/
def cnWitnessRec : ResourceRecord :=
  { name := s2b "www.example.com", rtype := TypeCNAME, rclass := 1, ttl := 3600,
    target := s2b "example.com" }

/-- Two queries with different IDs and no questions, for the builder race. -/
def raceQueryA : Message :=
  { header := { iD := 1, flags := 0, qdCount := 0, anCount := 0, nsCount := 0, arCount := 0 },
    questions := [], answers := [], authority := [], additional := [] }

/-- Second racing query. -/
def raceQueryB : Message :=
  { header := { iD := 2, flags := 0, qdCount := 0, anCount := 0, nsCount := 0, arCount := 0 },
    questions := [], answers := [], authority := [], additional := [] }

/-- A query with `RD` set and one question, for the header-emission witness. -/
def rdQuery : Message :=
  { header := { iD := 7, flags := 257, qdCount := 1, anCount := 0, nsCount := 0, arCount := 0 },
    questions := [{ name := s2b "example.com", qtype := 1, qclass := 1 }],
    answers := [], authority := [], additional := [] }

/-- A 12-byte message declaring one question and encoding none. -/
def shortCountMsg : List Nat := [0, 0, 0, 0, 0, 1, 0, 0, 0, 0, 0, 0]

/-- Success of the zone-file loader. -/
def loadOk (r : Except String (Option Zone)) : Prop := ∃ x, r = .ok x

instance (n : GoStr) : Decidable (wfName n) := by
  unfold wfName
  exact inferInstance

instance (rr : ResourceRecord) : Decidable (wfRecord rr) := by
  unfold wfRecord
  exact inferInstance

/-- The build-then-parse round trip for a single record: parsing the
response built (for the empty query) around `rr` succeeds, the answer
section holds exactly one record, of `rr`'s type, with matching payload. -/
def roundTripOK (rr : ResourceRecord) (f : Nat) : Prop :=
  ∃ msg rr1, ParseF f (BuildResponse emptyQuery [rr] []) = .ok msg
    ∧ msg.answers = [rr1] ∧ rr1.rtype = rr.rtype ∧ payloadMatches rr rr1

/-! ## Helper lemmas -/

/-- Byte access after a prefix. -/
theorem byteAt_append (pre rest : List Nat) (k : Nat) :
    byteAt (pre ++ rest) (pre.length + k) = byteAt rest k := by
  simp [byteAt, List.getD_eq_getElem?_getD,
    List.getElem?_append_right (Nat.le_add_right pre.length k)]

/-- Byte access at the end of a prefix. -/
theorem byteAt_append0 (pre rest : List Nat) :
    byteAt (pre ++ rest) pre.length = byteAt rest 0 := by
  have := byteAt_append pre rest 0
  simpa using this

/-- Slicing out a middle segment. -/
theorem sliceB_append (pre mid post : List Nat) :
    sliceB (pre ++ (mid ++ post)) pre.length mid.length = mid := by
  simp [sliceB, List.drop_left, List.take_left]

/-- A masked value cannot exceed its source: a length octet below 192 is
never mistaken for a pointer. -/
theorem land192_ne (n : Nat) (h : n < 192) : n &&& 192 ≠ 192 := by
  intro heq
  have h2 : n &&& 192 ≤ n := Nat.and_le_left
  omega

/-- `parseName` over a sequence of plain labels followed by the zero
terminator: each label of nonzero length below 192 is consumed as written,
and the cursor ends just past the terminator.  `pre` is the message prefix
before the name, `acc` the labels accumulated so far. -/
theorem parseName_labels (ls : List GoStr) :
    ∀ (pre post : List Nat) (acc : List GoStr) (vis : List Nat) (f : Nat),
    (∀ l ∈ ls, l ≠ [] ∧ l.length < 192) → ls.length + 1 ≤ f →
    parseName f (pre ++ (encLabels ls ++ (0 :: post))) acc vis pre.length
      = .ok (joinDots (acc ++ ls), pre.length + (encLabels ls).length + 1) := by
  induction ls with
  | nil =>
    intro pre post acc vis f _ hf
    obtain ⟨f0, rfl⟩ : ∃ f0, f = f0 + 1 := ⟨f - 1, by omega⟩
    have hlen : (pre ++ (encLabels [] ++ (0 :: post))).length = pre.length + 1 + post.length := by
      simp [encLabels]; omega
    have hb : byteAt (pre ++ (encLabels [] ++ (0 :: post))) pre.length = 0 := by
      rw [byteAt_append0]; simp [encLabels, byteAt]
    simp only [parseName]
    rw [if_neg (by rw [hlen]; omega), hb]
    rw [if_neg (by decide), if_pos rfl]
    simp [encLabels]
  | cons l ls ih =>
    intro pre post acc vis f hwf hf
    obtain ⟨f0, rfl⟩ : ∃ f0, f = f0 + 1 := ⟨f - 1, by omega⟩
    have hl := hwf l (by simp)
    have hdata : pre ++ (encLabels (l :: ls) ++ (0 :: post))
        = pre ++ ((l.length :: l) ++ (encLabels ls ++ (0 :: post))) := by
      simp [encLabels]
    rw [hdata]
    have hlen : (pre ++ ((l.length :: l) ++ (encLabels ls ++ (0 :: post)))).length
        = pre.length + 1 + l.length + (encLabels ls).length + 1 + post.length := by
      simp; omega
    have hb : byteAt (pre ++ ((l.length :: l) ++ (encLabels ls ++ (0 :: post)))) pre.length
        = l.length := by
      rw [byteAt_append0]; simp [byteAt]
    have hnz : l.length ≠ 0 := by
      intro h0; exact hl.1 (List.length_eq_zero.mp h0)
    have hslice : sliceB (pre ++ ((l.length :: l) ++ (encLabels ls ++ (0 :: post))))
        (pre.length + 1) l.length = l := by
      have hsplit : pre ++ ((l.length :: l) ++ (encLabels ls ++ (0 :: post)))
          = (pre ++ [l.length]) ++ (l ++ (encLabels ls ++ (0 :: post))) := by simp
      rw [hsplit]
      have hplen : pre.length + 1 = (pre ++ [l.length]).length := by simp
      rw [hplen, sliceB_append]
    have hrec := ih (pre ++ [l.length] ++ l) post (acc ++ [l]) vis f0
      (fun x hx => hwf x (by simp [hx])) (by simp at hf ⊢; omega)
    have hplen2 : (pre ++ [l.length] ++ l).length = pre.length + 1 + l.length := by
      simp; omega
    rw [hplen2] at hrec
    have hdata2 : (pre ++ [l.length] ++ l) ++ (encLabels ls ++ (0 :: post))
        = pre ++ ((l.length :: l) ++ (encLabels ls ++ (0 :: post))) := by simp
    rw [hdata2] at hrec
    simp only [parseName]
    rw [if_neg (by rw [hlen]; omega), hb]
    rw [if_neg (land192_ne l.length hl.2), if_neg hnz]
    rw [if_neg (by rw [hlen]; omega)]
    rw [hslice, hrec]
    have hel : (encLabels (l :: ls)).length = l.length + 1 + (encLabels ls).length := by
      simp [encLabels]; omega
    simp only [PRes.ok.injEq, Prod.mk.injEq]
    exact ⟨by simp, by rw [hel]; omega⟩

/-- A name whose length octet points back at itself makes `parseName` run
out of any amount of fuel: the recursive call re-enters with a fresh
`visited` set, so the revisit check never fires. -/
theorem parseName_self_pointer (data : List Nat) (pos : Nat)
    (hlen : pos + 1 < data.length)
    (hb : byteAt data pos &&& 192 = 192)
    (hoff : readU16 data pos &&& 16383 = pos) :
    ∀ f, parseName f data [] [] pos = .fuel := by
  intro f
  induction f with
  | zero => rfl
  | succ f ih =>
    have h1 : ¬pos ≥ data.length := by omega
    have h2 : ¬pos + 1 ≥ data.length := by omega
    simp [parseName, h1, h2, hb, hoff, ih]

/-- If the header parses with a positive question count and the first
question parse runs out of fuel, so does the whole parse. -/
theorem ParseF_fuel_of_question (f : Nat) (data : List Nat) (h : Header) (n : Nat)
    (hh : parseHeaderGo data = .ok h) (hq : h.qdCount = n + 1)
    (hstep : parseQuestionGo f data 12 = .fuel) : ParseF f data = .fuel := by
  simp [ParseF, hh, hq, parseListGo, hstep]

/-! ## C1 -/

/-- C1: the claim says a compression-pointer loop makes `Parse` terminate
with an error because revisited offsets are detected.  The code allocates
the `visited` map per `parseName` invocation and recursion re-enters the
function, so the check never fires: on the message whose question name is
a pointer to its own offset, `Parse` does not return for any fuel amount
(the Go code recurses without bound). -/
theorem C1_pointer_loop_parse_never_returns : ∀ f, ParseF f pointerLoopMsg = .fuel := by
  intro f
  have key : parseName f pointerLoopMsg [] [] 12 = .fuel :=
    parseName_self_pointer pointerLoopMsg 12 (by decide) (by decide) (by decide) f
  exact ParseF_fuel_of_question f pointerLoopMsg
    { iD := 0, flags := 0, qdCount := 1, anCount := 0, nsCount := 0, arCount := 0 } 0
    (by decide) rfl (by simp [parseQuestionGo, key])

/-! ## C4 -/

/-- C4 (counterexample): the length octet `0x41` has top bits `01` and
value 65 > 63, yet `parseName` accepts it as a plain 65-byte label instead
of failing with a FormatError. -/
theorem C4_reserved_bits_accepted :
    parseName 10 (65 :: (List.replicate 65 97 ++ [0])) [] [] 0
      = .ok (List.replicate 65 97, 67) ∧ 65 &&& 192 = 64 := by decide

/-- C4 (amended): only the `11` pattern is treated as a pointer; any other
nonzero length octet — including the reserved `01`/`10` patterns and
values above 63 — is read as a plain label length, and the parse fails
only when that label would extend past the buffer. -/
theorem C4_length_octet_handling :
    (∀ (f : Nat) (data : List Nat) (labels : List GoStr) (visited : List Nat) (pos : Nat),
      pos < data.length →
      byteAt data pos &&& 192 ≠ 192 →
      byteAt data pos ≠ 0 →
      pos + 1 + byteAt data pos > data.length →
      parseName (f + 1) data labels visited pos = .err "label extends past data") ∧
    (∀ (l : GoStr) (f : Nat), 64 ≤ l.length → l.length ≤ 191 → 2 ≤ f →
      parseName f (l.length :: (l ++ [0])) [] [] 0 = .ok (l, l.length + 2)) := by
  constructor
  · intro f data labels visited pos hpos hnp hnz hover
    have h1 : ¬pos ≥ data.length := by omega
    simp [parseName, h1, hnp, hnz, hover]
  · intro l f h64 h191 hf
    have key := parseName_labels [l] [] [] [] [] f
      (by intro x hx; simp at hx; subst hx; constructor
          · intro h0; rw [h0] at h64; simp at h64
          · omega)
      (by simp; omega)
    have hdata : ([] : List Nat) ++ (encLabels [l] ++ (0 :: [])) = l.length :: (l ++ [0]) := by
      simp [encLabels]
    rw [hdata] at key
    have hout : joinDots (([] : List GoStr) ++ [l]) = l := by
      simp [joinDots, List.intercalate]
    rw [hout] at key
    have hlen2 : ([] : List Nat).length + (encLabels [l]).length + 1 = l.length + 2 := by
      simp [encLabels]
    rw [hlen2] at key
    exact key

/-- C4 witness: a 2-byte label over a 2-byte buffer fails, and a 64-byte
label (reserved pattern `01`) is accepted. -/
theorem C4_length_octet_handling_witness :
    parseName 5 [2, 97] [] [] 0 = .err "label extends past data" ∧
    parseName 2 ((List.replicate 64 98).length :: (List.replicate 64 98 ++ [0])) [] [] 0
      = .ok (List.replicate 64 98, (List.replicate 64 98).length + 2) :=
  ⟨C4_length_octet_handling.1 4 [2, 97] [] [] 0 (by decide) (by decide) (by decide) (by decide),
   C4_length_octet_handling.2 (List.replicate 64 98) 2 (by decide) (by decide) (by decide)⟩

/-! ## C3 -/

/-- The `findZone` probe loop visits exactly the suffixes obtained by
dropping leading labels, in order, stopping at the last label. -/
theorem findZoneLoop_eq_firstHit (zones : List (GoStr × Zone)) :
    ∀ ls : List GoStr,
    findZoneLoop zones ls
      = firstHit zones ((List.range ls.length).map fun i => joinLabels (ls.drop i)) := by
  intro ls
  induction ls with
  | nil => rfl
  | cons l rest ih =>
    have hrange : List.range (l :: rest).length = 0 :: (List.range rest.length).map (· + 1) := by
      simp [List.range_succ_eq_map]
    rw [hrange]
    simp only [List.map_cons, List.map_map]
    have hmap : ((List.range rest.length).map ((fun i => joinLabels ((l :: rest).drop i)) ∘ (· + 1)))
        = (List.range rest.length).map fun i => joinLabels (rest.drop i) := by
      simp [Function.comp]
    rw [hmap]
    simp only [List.drop_zero]
    cases hm : mapFind zones (joinLabels (l :: rest)) with
    | some z => simp [findZoneLoop, firstHit, hm]
    | none => simp [findZoneLoop, firstHit, hm, ih]

/-- C3 (amended): `findZone` lowercases the name and probes the zones map
with the full name and then each suffix obtained by dropping one leading
label at a time, down to the last label, returning the first match; the
empty string is never probed. -/
theorem C3_findZone_probe_order :
    ∀ (zones : List (GoStr × Zone)) (name : GoStr),
    findZone zones name = firstHit zones (probeList name) := by
  intro zones name
  simp [findZone, probeList, findZoneLoop_eq_firstHit]

/-- C3 (counterexample): with a zones map holding only the key `""`,
the claimed probe sequence (which ends with `""`) would find that zone for
query `a.com`, but `findZone` returns no zone: the final empty-string
probe does not happen. -/
theorem C3_no_empty_probe :
    findZone [([], NewZone [])] (s2b "a.com") = none ∧
    firstHit [([], NewZone [])] (claimProbes (s2b "a.com")) = some (NewZone []) := by decide

/-! ## C6 -/

/-- ASCII lowering is idempotent per byte. -/
theorem lowerByte_lowerByte (b : Nat) : lowerByte (lowerByte b) = lowerByte b := by
  simp only [lowerByte]
  by_cases h : 65 ≤ b ∧ b ≤ 90
  · simp only [if_pos h]
    rw [if_neg (by omega)]
  · simp only [if_neg h]

/-- ASCII lowering is idempotent. -/
theorem toLowerB_toLowerB (s : GoStr) : toLowerB (toLowerB s) = toLowerB s := by
  have hcomp : lowerByte ∘ lowerByte = lowerByte := funext lowerByte_lowerByte
  simp [toLowerB, List.map_map, hcomp]

/-- `recordKey` already lowercases, so pre-lowering the name is invisible. -/
theorem recordKey_toLower (n : GoStr) (t : Nat) :
    recordKey (toLowerB n) t = recordKey n t := by
  simp [recordKey, toLowerB_toLowerB]

/-- C6: for a zone and name with no direct A (resp. AAAA) entry and a
single CNAME record stored at the name, `Lookup` with type A (resp. AAAA)
returns exactly that CNAME record; for any other query type `Lookup`
returns the direct entry or nothing — no CNAME fallback. -/
theorem C6_cname_fallback :
    ∀ (z : Zone) (name : GoStr) (c : ResourceRecord) (t : Nat),
    (mapFind z.records (recordKey name TypeA) = none →
       mapFind z.records (recordKey name TypeCNAME) = some [c] →
       Lookup z name TypeA = [c]) ∧
    (mapFind z.records (recordKey name TypeAAAA) = none →
       mapFind z.records (recordKey name TypeCNAME) = some [c] →
       Lookup z name TypeAAAA = [c]) ∧
    (t ≠ TypeA → t ≠ TypeAAAA →
       mapFind z.records (recordKey name t) = none → Lookup z name t = []) ∧
    (∀ rs, mapFind z.records (recordKey name t) = some rs → Lookup z name t = rs) := by
  intro z name c t
  refine ⟨fun hA hC => ?_, fun hA hC => ?_, fun h1 h2 hN => ?_, fun rs hrs => ?_⟩
  · simp [Lookup, recordKey_toLower, hA, hC]
  · simp [Lookup, recordKey_toLower, hA, hC]
  · simp [Lookup, recordKey_toLower, hN, h1, h2]
  · simp [Lookup, recordKey_toLower, hrs]

/-- C6 witness: in the zone holding only the `www` CNAME, an A query
returns the CNAME record and a TXT query returns nothing. -/
theorem C6_cname_fallback_witness :
    Lookup cnameZone (s2b "www.example.com") TypeA = [cnameRec] ∧
    Lookup cnameZone (s2b "www.example.com") TypeTXT = [] :=
  ⟨(C6_cname_fallback cnameZone (s2b "www.example.com") cnameRec TypeTXT).1
      (by decide) (by decide),
   (C6_cname_fallback cnameZone (s2b "www.example.com") cnameRec TypeTXT).2.2.1
      (by decide) (by decide) (by decide)⟩

/-! ## C8 -/

/-- `decDigitsF` emits only ASCII digits, all below 65. -/
theorem decDigitsF_lt (f : Nat) : ∀ (n b : Nat), b ∈ decDigitsF f n → b < 65 := by
  induction f with
  | zero => intro n b hb; simp [decDigitsF] at hb
  | succ f ih =>
    intro n b hb
    simp only [decDigitsF] at hb
    by_cases h : n < 10
    · rw [if_pos h] at hb; simp at hb; omega
    · rw [if_neg h] at hb
      rcases List.mem_append.mp hb with h1 | h2
      · exact ih (n / 10) b h1
      · have : n % 10 < 10 := Nat.mod_lt n (by omega)
        simp at h2; omega

/-- Bytes below 65 are fixed by ASCII lowering. -/
theorem map_lower_of_small (l : GoStr) (h : ∀ b ∈ l, b < 65) : l.map lowerByte = l := by
  induction l with
  | nil => rfl
  | cons b rest ih =>
    have hb : lowerByte b = b := by rw [lowerByte, if_neg (by have := h b (by simp); omega)]
    simp [hb, ih fun x hx => h x (by simp [hx])]

/-- A record-map key is fixed by lowercasing. -/
theorem toLowerB_recordKey (n : GoStr) (t : Nat) :
    toLowerB (recordKey n t) = recordKey n t := by
  have hcomp : lowerByte ∘ lowerByte = lowerByte := funext lowerByte_lowerByte
  have hdig : (decDigits t).map lowerByte = decDigits t :=
    map_lower_of_small _ fun b hb => decDigitsF_lt (t + 1) t b hb
  simp [recordKey, toLowerB, List.map_append, List.map_map, hcomp, hdig,
    show lowerByte 58 = 58 from rfl]

/-- Every entry of `mapAppend m k rr` has key `k` or a key of `m`. -/
theorem mapAppend_keys (k : GoStr) (rr : ResourceRecord) :
    ∀ (m : List (GoStr × List ResourceRecord)) kv, kv ∈ mapAppend m k rr →
    kv.1 = k ∨ kv.1 ∈ m.map Prod.fst := by
  intro m
  induction m with
  | nil => intro kv hkv; simp [mapAppend] at hkv; left; rw [hkv]
  | cons p rest ih =>
    obtain ⟨k1, v⟩ := p
    intro kv hkv
    by_cases hk : k1 = k
    · simp only [mapAppend, if_pos hk] at hkv
      rcases List.mem_cons.mp hkv with h1 | h2
      · left; rw [h1]; exact hk
      · right; rw [List.map_cons]
        exact List.mem_cons_of_mem _ (List.mem_map_of_mem Prod.fst h2)
    · simp only [mapAppend, if_neg hk] at hkv
      rcases List.mem_cons.mp hkv with h1 | h2
      · right; rw [h1]; simp
      · rcases ih kv h2 with h3 | h4
        · left; exact h3
        · right; rw [List.map_cons]
          exact List.mem_cons_of_mem _ h4

/-- C8 (amended): if every key of a zone's record map is fixed under
lowercasing, the same holds after `AddRecord`, and any new key is exactly
`lowercase(name) + ":" + decimal(type)` of the inserted record; stored
records themselves keep the owner name they were given (the loader does
not lowercase it — see the counterexample). -/
theorem C8_keys_lowercase :
    ∀ (z : Zone) (rr : ResourceRecord),
    (∀ kv ∈ z.records, toLowerB kv.1 = kv.1) →
    ∀ kv ∈ (AddRecord z rr).records,
      toLowerB kv.1 = kv.1 ∧
      (kv.1 = recordKey rr.name rr.rtype ∨ kv.1 ∈ z.records.map Prod.fst) := by
  intro z rr hz kv hkv
  have hor := mapAppend_keys (recordKey rr.name rr.rtype) rr z.records kv hkv
  rcases hor with h1 | h2
  · exact ⟨by rw [h1]; exact toLowerB_recordKey rr.name rr.rtype, Or.inl h1⟩
  · obtain ⟨p, hp, hfst⟩ := List.mem_map.mp h2
    refine ⟨?_, Or.inr h2⟩
    rw [← hfst]; exact hz p hp

/-- C8 (counterexample): loading `WWW IN A 1.2.3.4` under origin
`test.com` stores a record whose `Name` is `WWW.test.com` — not
lowercased, so the claimed stored-name invariant fails (the map key is
lowercased, the record field is not). -/
theorem C8_stored_name_keeps_case :
    (match LoadZoneFile mixedCaseLines with
     | .ok (some z) => (Lookup z (s2b "www.test.com") TypeA).map (fun r => r.name)
     | _ => []) = [s2b "WWW.test.com"] ∧
    toLowerB (s2b "WWW.test.com") ≠ s2b "WWW.test.com" := by decide

/-- C8 witness: the key created for the CNAME record insertion is fixed
under lowercasing. -/
theorem C8_keys_lowercase_witness :
    toLowerB (s2b "www.example.com:5") = s2b "www.example.com:5" :=
  (C8_keys_lowercase (NewZone (s2b "example.com")) cnameRec (by decide)
    (s2b "www.example.com:5", [cnameRec]) (by decide)).1

/-! ## C10 -/

/-- `BuildResponse` emits exactly the chunk sequence of the shared-cell
model, in order: the model's appends reproduce the builder's writes. -/
theorem buildResponse_eq_chunks (query : Message) (answers authority : List ResourceRecord) :
    BuildResponse query answers authority = (chunksOf query answers authority).flatten := by
  simp [BuildResponse, chunksOf, List.flatten_append, List.append_assoc]

/-- C10: the claim says concurrently spawned handlers sharing the server's
single `Builder` are safe.  They are not: under the interleaving in which
handler B's `b.data = b.data[:0]` reset runs between handler A's writes
and A's return, A returns B's response bytes, not the response A would
produce running alone (the two responses differ, having different IDs).
The sequential schedule is included to show both runs are otherwise
well-formed. -/
theorem C10_shared_builder_race :
    (runSched [true, true, false, false, false, true]
       (progOf raceQueryA [] []) (progOf raceQueryB [] []) [] none none).1
      = some (BuildResponse raceQueryB [] []) ∧
    runSched [true, true, true, false, false, false]
       (progOf raceQueryA [] []) (progOf raceQueryB [] []) [] none none
      = (some (BuildResponse raceQueryA [] []), some (BuildResponse raceQueryB [] [])) ∧
    BuildResponse raceQueryA [] [] ≠ BuildResponse raceQueryB [] [] := by decide

/-! ## C9 -/

/-- The `RD` test the builder performs agrees with bit 8. -/
theorem and256_testBit (n : Nat) : (n &&& 256 ≠ 0) = (n.testBit 8 = true) := by
  have h : n &&& 256 = (n.testBit 8).toNat * 256 := by
    have := Nat.and_two_pow n 8
    norm_num at this
    exact this
  cases htb : n.testBit 8 <;> simp [htb] at h <;> simp [h, htb]

/-- C9: the first 12 bytes of `BuildResponse` encode: the query's ID;
flags with QR=1, AA=1, RD mirrored from the query, TC=0, RA=0, opcode 0;
and counts equal to the number of echoed questions, the answer-list
length, the authority-list length, and 0 (lengths below 2^16, as Go's
`uint16` slice lengths are in any reachable state). -/
theorem C9_response_header (query : Message) (answers authority : List ResourceRecord)
    (h1 : query.questions.length < 65536) (h2 : answers.length < 65536)
    (h3 : authority.length < 65536) :
    (BuildResponse query answers authority).take 12
      = u16be query.header.iD ++ u16be (responseHeader query answers authority).flags ++
        u16be query.questions.length ++ u16be answers.length ++
        u16be authority.length ++ u16be 0 ∧
    (responseHeader query answers authority).flags.testBit 15 = true ∧
    (responseHeader query answers authority).flags.testBit 10 = true ∧
    (responseHeader query answers authority).flags.testBit 8 = query.header.flags.testBit 8 ∧
    (responseHeader query answers authority).flags.testBit 9 = false ∧
    (responseHeader query answers authority).flags.testBit 7 = false ∧
    (responseHeader query answers authority).flags / 2048 % 16 = 0 := by
  constructor
  · have hlen : (headerBytes (responseHeader query answers authority)).length = 12 := by
      simp [headerBytes, u16be]
    have htake : (BuildResponse query answers authority).take 12
        = headerBytes (responseHeader query answers authority) := by
      rw [BuildResponse, List.append_assoc, List.append_assoc]
      rw [← hlen, List.take_left]
    rw [htake]
    simp only [headerBytes, responseHeader]
    rw [Nat.mod_eq_of_lt h1, Nat.mod_eq_of_lt h2, Nat.mod_eq_of_lt h3]
  · by_cases hrd : query.header.flags &&& 256 ≠ 0
    · have hflags : (responseHeader query answers authority).flags = 34048 := by
        simp [responseHeader, FlagQR, FlagAA, FlagRD, hrd]
      have htb : query.header.flags.testBit 8 = true := by
        rw [← and256_testBit]; exact hrd
      rw [hflags, htb]
      refine ⟨by decide, by decide, by decide, by decide, by decide, by decide⟩
    · have hrd0 : query.header.flags &&& 256 = 0 := by omega
      have hflags : (responseHeader query answers authority).flags = 33792 := by
        simp [responseHeader, FlagQR, FlagAA, FlagRD, hrd0]
      have htb : query.header.flags.testBit 8 = false := by
        rcases h : query.header.flags.testBit 8
        · rfl
        · exfalso
          have := and256_testBit query.header.flags
          rw [← this] at h
          exact h hrd0
      rw [hflags, htb]
      refine ⟨by decide, by decide, by decide, by decide, by decide, by decide⟩

/-- C9 witness: for the RD-set query with ID 7, one question, one answer,
no authority. -/
theorem C9_response_header_witness :
    (BuildResponse rdQuery [cnameRec] []).take 12
      = u16be 7 ++ u16be 34048 ++ u16be 1 ++ u16be 1 ++ u16be 0 ++ u16be 0 ∧
    (34048 : Nat).testBit 15 = true ∧
    (34048 : Nat).testBit 10 = true ∧
    (34048 : Nat).testBit 8 = (257 : Nat).testBit 8 ∧
    (34048 : Nat).testBit 9 = false ∧
    (34048 : Nat).testBit 7 = false ∧
    (34048 : Nat) / 2048 % 16 = 0 :=
  C9_response_header rdQuery [cnameRec] [] (by decide) (by decide) (by decide)

/-! ## C5 -/

/-- Lines surviving the parenthesis skip come from the original list. -/
theorem dropParen_subset : ∀ (lines : List GoStr) (l : GoStr),
    l ∈ dropParen lines → l ∈ lines := by
  intro lines
  induction lines with
  | nil => intro l h; simp [dropParen] at h
  | cons x rest ih =>
    intro l h
    simp only [dropParen] at h
    by_cases hx : containsByte x 41 = true
    · rw [if_pos hx] at h; exact List.mem_cons_of_mem _ h
    · rw [if_neg hx] at h; exact List.mem_cons_of_mem _ (ih l h)

/-- The parenthesis skip never grows the line list. -/
theorem dropParen_length : ∀ lines : List GoStr,
    (dropParen lines).length ≤ lines.length := by
  intro lines
  induction lines with
  | nil => simp [dropParen]
  | cons x rest ih =>
    simp only [dropParen]
    by_cases hx : containsByte x 41 = true
    · rw [if_pos hx]; simp
    · rw [if_neg hx]; simp; omega

/-- With enough fuel (one unit per line suffices), the loader loop fails
only when it reaches a `$TTL` directive with an invalid duration. -/
theorem loadLoopF_ok : ∀ (f : Nat) (lines : List GoStr) (zone : Option Zone)
    (origin : GoStr) (ttl : Nat) (cn : GoStr),
    lines.length < f → (∀ l ∈ lines, ¬badTTLLine l) →
    ∃ r, loadLoopF f lines zone origin ttl cn = .ok r := by
  intro f
  induction f with
  | zero => intro lines _ _ _ _ h; omega
  | succ f ih =>
    intro lines zone origin ttl cn hf hb
    cases lines with
    | nil => exact ⟨zone, rfl⟩
    | cons raw rest =>
      simp only [loadLoopF]
      by_cases c1 : trimSpaceB raw = [] ∨ hasPrefixB (trimSpaceB raw) [59] = true
      · rw [if_pos c1]
        exact ih rest zone origin ttl cn (by simp at hf; omega)
          fun l hl => hb l (List.mem_cons_of_mem _ hl)
      · rw [if_neg c1]
        by_cases c2 : hasPrefixB (trimSpaceB raw) (s2b "$ORIGIN") = true
        · rw [if_pos c2]
          exact ih rest _ _ ttl cn (by simp at hf; omega)
            fun l hl => hb l (List.mem_cons_of_mem _ hl)
        · rw [if_neg c2]
          by_cases c3 : hasPrefixB (trimSpaceB raw) (s2b "$TTL") = true
          · rw [if_pos c3]
            cases hp : parseTTL (trimSpaceB (trimPrefixB (trimSpaceB raw) (s2b "$TTL"))) with
            | error e =>
              exfalso
              exact hb raw (by simp) ⟨c1, c2, c3, by rw [hp]; rfl⟩
            | ok v =>
              exact ih rest zone origin v cn (by simp at hf; omega)
                fun l hl => hb l (List.mem_cons_of_mem _ hl)
          · rw [if_neg c3]
            by_cases c4 : containsByte (trimSpaceB raw) 40 = true
            · rw [if_pos c4]
              refine ih (dropParen rest) zone origin ttl cn ?_ ?_
              · have := dropParen_length rest
                simp at hf; omega
              · exact fun l hl => hb l (List.mem_cons_of_mem _ (dropParen_subset rest l hl))
            · rw [if_neg c4]
              cases hz : parseZoneLine (trimSpaceB raw) origin cn ttl with
              | error e =>
                exact ih rest zone origin ttl cn (by simp at hf; omega)
                  fun l hl => hb l (List.mem_cons_of_mem _ hl)
              | ok rn =>
                exact ih rest _ origin ttl _ (by simp at hf; omega)
                  fun l hl => hb l (List.mem_cons_of_mem _ hl)

/-- C5 (amended): `LoadZoneFile` silently skips malformed record lines and
does *not* fail when a record line precedes `$ORIGIN` — such a record is
stored in a zone whose origin is the empty string.  With file I/O set
aside, it can fail only on a `$TTL` directive carrying an invalid
duration; a file with no zone-creating line yields the `nil` zone. -/
theorem C5_loader_error_model :
    (∀ lines : List GoStr, (∀ l ∈ lines, ¬badTTLLine l) → loadOk (LoadZoneFile lines)) ∧
    LoadZoneFile noOriginLines
      = .ok (some { name := [], records := [(s2b "www.:1", [noOriginRecord])], soa := none }) ∧
    LoadZoneFile [] = .ok none := by
  refine ⟨fun lines hb => ?_, rfl, rfl⟩
  exact loadLoopF_ok (lines.length + 1) lines none [] 3600 [] (by omega) hb

/-- C5 (counterexample): a record line with no preceding `$ORIGIN` does
not make `LoadZoneFile` fail — it returns a zone with empty origin name
holding the record — and the empty file returns a `nil` zone without
error, so "fails before $ORIGIN" and "non-nil zone on success" are both
false as stated. -/
theorem C5_no_origin_no_error :
    LoadZoneFile noOriginLines
      = .ok (some { name := [], records := [(s2b "www.:1", [noOriginRecord])], soa := none }) ∧
    LoadZoneFile [] = .ok none ∧
    (s2b "www.:1" : GoStr) = recordKey (s2b "www.") TypeA := ⟨rfl, rfl, by decide⟩

/-- C5 witness: the mixed-case zone file has no bad `$TTL` line and loads
without error. -/
theorem C5_loader_error_model_witness : loadOk (LoadZoneFile mixedCaseLines) :=
  C5_loader_error_model.1 mixedCaseLines (by decide)

/-! ## C7 -/

/-- A successful `parseName` strictly advances the cursor and leaves it
within the buffer. -/
theorem parseName_advance : ∀ (f : Nat) (data : List Nat) (labels : List GoStr)
    (vis : List Nat) (pos : Nat) (s : GoStr) (pos2 : Nat),
    parseName f data labels vis pos = .ok (s, pos2) → pos < pos2 ∧ pos2 ≤ data.length := by
  intro f
  induction f with
  | zero =>
    intro data labels vis pos s pos2 h
    simp [parseName] at h
  | succ f ih =>
    intro data labels vis pos s pos2 h
    simp only [parseName] at h
    by_cases h1 : pos ≥ data.length
    · rw [if_pos h1] at h; simp at h
    rw [if_neg h1] at h
    by_cases h2 : byteAt data pos &&& 192 = 192
    · rw [if_pos h2] at h
      by_cases h3 : pos + 1 ≥ data.length
      · rw [if_pos h3] at h; simp at h
      rw [if_neg h3] at h
      by_cases h4 : readU16 data pos &&& 16383 ∈ vis
      · rw [if_pos h4] at h; simp at h
      rw [if_neg h4] at h
      cases hrec : parseName f data [] [] (readU16 data pos &&& 16383) with
      | ok p =>
        obtain ⟨rest, rpos⟩ := p
        rw [hrec] at h
        dsimp only at h
        by_cases h5 : labels = []
        · rw [if_pos h5] at h
          simp only [PRes.ok.injEq, Prod.mk.injEq] at h
          omega
        · rw [if_neg h5] at h
          simp only [PRes.ok.injEq, Prod.mk.injEq] at h
          omega
      | err e => rw [hrec] at h; simp at h
      | fuel => rw [hrec] at h; simp at h
    rw [if_neg h2] at h
    by_cases h5 : byteAt data pos = 0
    · rw [if_pos h5] at h
      simp only [PRes.ok.injEq, Prod.mk.injEq] at h
      omega
    rw [if_neg h5] at h
    by_cases h6 : pos + 1 + byteAt data pos > data.length
    · rw [if_pos h6] at h; simp at h
    rw [if_neg h6] at h
    have := ih data (labels ++ [sliceB data (pos + 1) (byteAt data pos)]) vis
      (pos + 1 + byteAt data pos) s pos2 h
    omega

/-- A successful `parseQuestion` advances the cursor by at least 5 and
stays within the buffer. -/
theorem parseQuestionGo_advance (f : Nat) (data : List Nat) (pos : Nat)
    (q : Question) (pos2 : Nat) :
    parseQuestionGo f data pos = .ok (q, pos2) → pos + 5 ≤ pos2 ∧ pos2 ≤ data.length := by
  intro h
  simp only [parseQuestionGo] at h
  cases hn : parseName f data [] [] pos with
  | err e => rw [hn] at h; simp at h
  | fuel => rw [hn] at h; simp at h
  | ok p =>
    obtain ⟨nm, p1⟩ := p
    rw [hn] at h
    dsimp only at h
    have hb := parseName_advance f data [] [] pos nm p1 hn
    by_cases h4 : p1 + 4 > data.length
    · rw [if_pos h4] at h; simp at h
    · rw [if_neg h4] at h
      simp only [PRes.ok.injEq, Prod.mk.injEq] at h
      omega

/-- A successful `parseResourceRecord` advances the cursor by at least 11
and stays within the buffer. -/
theorem parseResourceRecordGo_advance (f : Nat) (data : List Nat) (pos : Nat)
    (rr : ResourceRecord) (pos2 : Nat) :
    parseResourceRecordGo f data pos = .ok (rr, pos2) →
    pos + 11 ≤ pos2 ∧ pos2 ≤ data.length := by
  intro h
  simp only [parseResourceRecordGo] at h
  cases hn : parseName f data [] [] pos with
  | err e => rw [hn] at h; simp at h
  | fuel => rw [hn] at h; simp at h
  | ok p =>
    obtain ⟨nm, p1⟩ := p
    rw [hn] at h
    dsimp only at h
    have hb := parseName_advance f data [] [] pos nm p1 hn
    by_cases h10 : p1 + 10 > data.length
    · rw [if_pos h10] at h; simp at h
    rw [if_neg h10] at h
    by_cases hrd : p1 + 10 + readU16 data (p1 + 8) > data.length
    · rw [if_pos hrd] at h; simp at h
    rw [if_neg hrd] at h
    split at h
    · split at h <;> (simp only [PRes.ok.injEq, Prod.mk.injEq] at h; omega)
    · split at h
      · split at h <;> (simp only [PRes.ok.injEq, Prod.mk.injEq] at h; omega)
      · split at h
        · split at h
          · simp only [PRes.ok.injEq, Prod.mk.injEq] at h; omega
          · simp only [PRes.ok.injEq, Prod.mk.injEq] at h; omega
          · simp at h
        · split at h
          · split at h
            · split at h
              · simp only [PRes.ok.injEq, Prod.mk.injEq] at h; omega
              · simp only [PRes.ok.injEq, Prod.mk.injEq] at h; omega
              · simp at h
            · simp only [PRes.ok.injEq, Prod.mk.injEq] at h; omega
          · split at h
            · simp only [PRes.ok.injEq, Prod.mk.injEq] at h; omega
            · simp only [PRes.ok.injEq, Prod.mk.injEq] at h; omega

/-- A successful section loop of `n` entries whose step advances by at
least `k` ends at least `k * n` further on, still within the buffer. -/
theorem parseListGo_advance {α : Type} (step : Nat → PRes (α × Nat)) (k L : Nat)
    (hstep : ∀ p a p2, step p = .ok (a, p2) → p + k ≤ p2 ∧ p2 ≤ L) :
    ∀ (n pos : Nat) (as : List α) (pos2 : Nat),
    pos ≤ L → parseListGo step n pos = .ok (as, pos2) →
    pos + k * n ≤ pos2 ∧ pos2 ≤ L := by
  intro n
  induction n with
  | zero =>
    intro pos as pos2 hL h
    simp only [parseListGo, PRes.ok.injEq, Prod.mk.injEq] at h
    omega
  | succ n ih =>
    intro pos as pos2 hL h
    simp only [parseListGo] at h
    cases hs : step pos with
    | err e => rw [hs] at h; simp at h
    | fuel => rw [hs] at h; simp at h
    | ok p =>
      obtain ⟨a, p1⟩ := p
      rw [hs] at h
      dsimp only at h
      have h1 := hstep pos a p1 hs
      cases hrest : parseListGo step n p1 with
      | err e => rw [hrest] at h; simp at h
      | fuel => rw [hrest] at h; simp at h
      | ok q =>
        obtain ⟨as1, p2⟩ := q
        rw [hrest] at h
        dsimp only at h
        simp only [PRes.ok.injEq, Prod.mk.injEq] at h
        have h2 := ih p1 as1 p2 (by omega) hrest
        have hmul : k * (n + 1) = k * n + k := by ring
        omega

/-- C7 (amended): whenever the buffer is too short for the declared
section counts (at least 5 bytes per question and 11 per resource record
past the 12-byte header), `Parse` never succeeds, for any fuel amount: it
returns an error whenever it terminates.  Every byte access the parser
performs sits behind the bounds checks modelled here, mirroring the Go
code.  (It may instead fail to terminate when a name contains a pointer
loop — see the counterexample and C1.) -/
theorem C7_counts_exceeding_never_succeed (data : List Nat) (f : Nat)
    (h : data.length < 12 + 5 * readU16 data 4
        + 11 * (readU16 data 6 + readU16 data 8 + readU16 data 10)) :
    notSuccess (ParseF f data) := by
  cases hres : ParseF f data with
  | err e => exact trivial
  | fuel => exact trivial
  | ok msg =>
    exfalso
    simp only [ParseF] at hres
    cases hh : parseHeaderGo data with
    | err e => rw [hh] at hres; simp at hres
    | fuel => rw [hh] at hres; simp at hres
    | ok hd =>
      rw [hh] at hres
      dsimp only at hres
      have hlen12 : 12 ≤ data.length ∧ hd.qdCount = readU16 data 4
          ∧ hd.anCount = readU16 data 6 ∧ hd.nsCount = readU16 data 8
          ∧ hd.arCount = readU16 data 10 := by
        simp only [parseHeaderGo] at hh
        by_cases h12 : data.length < 12
        · rw [if_pos h12] at hh; simp at hh
        · rw [if_neg h12] at hh
          simp only [PRes.ok.injEq] at hh
          rw [← hh]
          exact ⟨by omega, rfl, rfl, rfl, rfl⟩
      obtain ⟨h12, hqd, han, hns, har⟩ := hlen12
      cases hq : parseListGo (parseQuestionGo f data) hd.qdCount 12 with
      | err e => rw [hq] at hres; simp at hres
      | fuel => rw [hq] at hres; simp at hres
      | ok pq =>
        obtain ⟨qs, pos1⟩ := pq
        rw [hq] at hres
        dsimp only at hres
        have hb1 := parseListGo_advance (parseQuestionGo f data) 5 data.length
          (fun p a p2 => parseQuestionGo_advance f data p a p2) hd.qdCount 12 qs pos1
          (by omega) hq
        cases ha : parseListGo (parseResourceRecordGo f data) hd.anCount pos1 with
        | err e => rw [ha] at hres; simp at hres
        | fuel => rw [ha] at hres; simp at hres
        | ok pa =>
          obtain ⟨ans, pos2⟩ := pa
          rw [ha] at hres
          dsimp only at hres
          have hb2 := parseListGo_advance (parseResourceRecordGo f data) 11 data.length
            (fun p a p2 => parseResourceRecordGo_advance f data p a p2) hd.anCount pos1 ans pos2
            (by omega) ha
          cases hn : parseListGo (parseResourceRecordGo f data) hd.nsCount pos2 with
          | err e => rw [hn] at hres; simp at hres
          | fuel => rw [hn] at hres; simp at hres
          | ok pn =>
            obtain ⟨ns, pos3⟩ := pn
            rw [hn] at hres
            dsimp only at hres
            have hb3 := parseListGo_advance (parseResourceRecordGo f data) 11 data.length
              (fun p a p2 => parseResourceRecordGo_advance f data p a p2) hd.nsCount pos2 ns pos3
              (by omega) hn
            cases hr : parseListGo (parseResourceRecordGo f data) hd.arCount pos3 with
            | err e => rw [hr] at hres; simp at hres
            | fuel => rw [hr] at hres; simp at hres
            | ok pr =>
              obtain ⟨ar, pos4⟩ := pr
              have hb4 := parseListGo_advance (parseResourceRecordGo f data) 11 data.length
                (fun p a p2 => parseResourceRecordGo_advance f data p a p2) hd.arCount pos3 ar pos4
                (by omega) hr
              rw [hqd] at hb1
              rw [han] at hb2
              rw [hns] at hb3
              rw [har] at hb4
              omega

/-- C7 (counterexample): the claim as stated promises a returned
FormatError; but a buffer whose declared question count (2) exceeds the
encoded questions (0) and whose bytes contain a self-pointing compression
pointer never returns at all (the `parseName` recursion never ends), for
the same reason as C1. -/
theorem C7_short_message_can_diverge : ParseDiverges pointerLoopMsg2 := by
  intro f
  have key : parseName f pointerLoopMsg2 [] [] 12 = .fuel :=
    parseName_self_pointer pointerLoopMsg2 12 (by decide) (by decide) (by decide) f
  exact ParseF_fuel_of_question f pointerLoopMsg2
    { iD := 0, flags := 0, qdCount := 2, anCount := 0, nsCount := 0, arCount := 0 } 1
    (by decide) rfl (by simp [parseQuestionGo, key])

/-- C7 witness: a 12-byte buffer declaring one question never parses
successfully. -/
theorem C7_counts_exceeding_witness : notSuccess (ParseF 37 shortCountMsg) :=
  C7_counts_exceeding_never_succeed shortCountMsg 37 (by decide)

/-! ## C2 -/

/-- Reading two bytes where `u16be v` was written recovers `v mod 2^16`. -/
theorem readU16_append (pre post : List Nat) (v : Nat) :
    readU16 (pre ++ (u16be v ++ post)) pre.length = v % 65536 := by
  have h0 := byteAt_append0 pre (u16be v ++ post)
  have h1 := byteAt_append pre (u16be v ++ post) 1
  simp only [readU16]
  rw [h0, h1]
  simp only [u16be, byteAt, List.cons_append, List.getD_eq_getElem?_getD,
    List.getElem?_cons_zero, List.getElem?_cons_succ, Option.getD_some]
  omega

/-- Reading four bytes where `u32be v` was written recovers `v mod 2^32`. -/
theorem readU32_append (pre post : List Nat) (v : Nat) :
    readU32 (pre ++ (u32be v ++ post)) pre.length = v % 4294967296 := by
  have h0 := byteAt_append0 pre (u32be v ++ post)
  have h1 := byteAt_append pre (u32be v ++ post) 1
  have h2 := byteAt_append pre (u32be v ++ post) 2
  have h3 := byteAt_append pre (u32be v ++ post) 3
  simp only [readU32]
  rw [h0, h1, h2, h3]
  simp only [u32be, byteAt, List.cons_append, List.getD_eq_getElem?_getD,
    List.getElem?_cons_zero, List.getElem?_cons_succ, Option.getD_some]
  omega

/-- Each encoded TXT string occupies at least one byte. -/
theorem encodeTXT_length_ge (texts : List GoStr) :
    texts.length ≤ (encodeTXT texts).length := by
  induction texts with
  | nil => simp [encodeTXT]
  | cons t ts ih =>
    simp only [encodeTXT, List.map_cons, List.flatten_cons, List.length_append,
      List.length_cons] at ih ⊢
    omega

/-- `parseTXT` recovers the strings `encodeTXT` wrote, when each is at
most 255 bytes (so none is truncated). -/
theorem parseTXTF_round (texts : List GoStr) : ∀ (pre : List Nat) (f : Nat),
    (∀ t ∈ texts, t.length ≤ 255) → texts.length + 1 ≤ f →
    parseTXTF f (pre ++ encodeTXT texts) pre.length = texts := by
  induction texts with
  | nil =>
    intro pre f _ hf
    obtain ⟨f0, rfl⟩ : ∃ f0, f = f0 + 1 := ⟨f - 1, by omega⟩
    simp [parseTXTF, encodeTXT]
  | cons t ts ih =>
    intro pre f h hf
    obtain ⟨f0, rfl⟩ : ∃ f0, f = f0 + 1 := ⟨f - 1, by omega⟩
    have h255 : t.length ≤ 255 := h t (by simp)
    have ht : t.take 255 = t := List.take_of_length_le h255
    have henc : encodeTXT (t :: ts) = (t.length :: t) ++ encodeTXT ts := by
      simp [encodeTXT, ht, h255]
    rw [henc]
    have hlen : (pre ++ ((t.length :: t) ++ encodeTXT ts)).length
        = pre.length + 1 + t.length + (encodeTXT ts).length := by simp; omega
    have hb : byteAt (pre ++ ((t.length :: t) ++ encodeTXT ts)) pre.length = t.length := by
      rw [byteAt_append0]; simp [byteAt]
    have hslice : sliceB (pre ++ ((t.length :: t) ++ encodeTXT ts)) (pre.length + 1) t.length
        = t := by
      have hsplit : pre ++ ((t.length :: t) ++ encodeTXT ts)
          = (pre ++ [t.length]) ++ (t ++ encodeTXT ts) := by simp
      rw [hsplit]
      have hplen : pre.length + 1 = (pre ++ [t.length]).length := by simp
      rw [hplen, sliceB_append]
    have hrec := ih (pre ++ [t.length] ++ t) f0 (fun x hx => h x (by simp [hx]))
      (by simp at hf ⊢; omega)
    have hplen2 : (pre ++ [t.length] ++ t).length = pre.length + 1 + t.length := by
      simp; omega
    rw [hplen2] at hrec
    have hdata2 : (pre ++ [t.length] ++ t) ++ encodeTXT ts
        = pre ++ ((t.length :: t) ++ encodeTXT ts) := by simp
    rw [hdata2] at hrec
    simp only [parseTXTF]
    rw [if_pos (by rw [hlen]; omega), hb]
    rw [if_neg (by rw [hlen]; omega), hslice, hrec]

/-- `parseTXT` of `encodeTXT` is the identity on untruncated strings. -/
theorem parseTXT_encodeTXT (texts : List GoStr) (h : ∀ t ∈ texts, t.length ≤ 255) :
    parseTXT (encodeTXT texts) = texts := by
  have hge := encodeTXT_length_ge texts
  have key := parseTXTF_round texts [] ((encodeTXT texts).length + 1) h (by omega)
  simpa [parseTXT] using key

/-- A name with no trailing dot is left alone by the builder's trim. -/
theorem trimSuffix_dot (n : GoStr) (h : n.getLast? ≠ some 46) :
    trimSuffixB n [46] = n := by
  by_cases hsuf : hasSuffixB n [46] = true
  · exfalso
    apply h
    rw [List.getLast?_eq_head?_reverse]
    rw [hasSuffixB] at hsuf
    have hpre : [46] <+: n.reverse := by
      have hrev : ([46] : List Nat).reverse = [46] := rfl
      rw [hrev] at hsuf
      exact List.isPrefixOf_iff_prefix.mp hsuf
    obtain ⟨t, ht⟩ := hpre
    rw [← ht]
    rfl
  · rw [trimSuffixB, if_neg hsuf]

/-- For a well-formed name, `encodeName` is the label encoding of its
dot-split followed by the zero terminator (no truncation happens). -/
theorem encodeName_wf (n : GoStr) (h : wfName n) :
    encodeName n = encLabels (splitDots n) ++ [0] := by
  obtain ⟨hlast, hlabels⟩ := h
  have hne : n ≠ [] := by
    intro h0; subst h0
    exact (hlabels [] (by decide)).1 rfl
  have hnd : n ≠ [46] := by
    intro h0; subst h0
    exact (hlabels [] (by decide)).1 rfl
  have hts : trimSuffixB n [46] = n := trimSuffix_dot n hlast
  rw [encodeName, if_neg (by simp [hne, hnd]), hts]
  dsimp only
  unfold encLabels
  congr 1
  congr 1
  apply List.map_congr_left
  intro l hl
  rw [List.take_of_length_le (hlabels l hl).2]

/-- `parseName` run where `encodeName n` was written recovers `n` and
leaves the cursor just past the encoding, for any well-formed `n`. -/
theorem parseName_encodeName (n : GoStr) (pre post : List Nat) (f : Nat)
    (h : wfName n) (hf : (splitDots n).length + 1 ≤ f) :
    parseName f (pre ++ (encodeName n ++ post)) [] [] pre.length
      = .ok (n, pre.length + (encodeName n).length) := by
  have henc := encodeName_wf n h
  have key := parseName_labels (splitDots n) pre post [] [] f
    (fun l hl => ⟨(h.2 l hl).1, by have := (h.2 l hl).2; omega⟩) hf
  have hjoin : joinDots (splitDots n) = n := by
    rw [joinDots, splitDots, List.intercalate_splitOn]
  have hshape : pre ++ (encLabels (splitDots n) ++ (0 :: post))
      = pre ++ (encodeName n ++ post) := by
    rw [henc]; simp
  rw [hshape] at key
  have hlen : pre.length + (encLabels (splitDots n)).length + 1
      = pre.length + (encodeName n).length := by
    rw [henc]
    simp only [List.length_append, List.length_cons, List.length_nil]
    omega
  rw [hlen] at key
  simpa [hjoin] using key

/-- `readU16` at a stated offset. -/
theorem readU16_at (bigpre rest2 D : List Nat) (v k : Nat)
    (hd : D = bigpre ++ (u16be v ++ rest2)) (hk : k = bigpre.length) (hv : v < 65536) :
    readU16 D k = v := by
  subst hd; subst hk
  rw [readU16_append, Nat.mod_eq_of_lt hv]

/-- `readU32` at a stated offset. -/
theorem readU32_at (bigpre rest2 D : List Nat) (v k : Nat)
    (hd : D = bigpre ++ (u32be v ++ rest2)) (hk : k = bigpre.length) (hv : v < 4294967296) :
    readU32 D k = v := by
  subst hd; subst hk
  rw [readU32_append, Nat.mod_eq_of_lt hv]

/-- `sliceB` at a stated offset. -/
theorem sliceB_at (bigpre mid rest2 D : List Nat) (k n : Nat)
    (hd : D = bigpre ++ (mid ++ rest2)) (hk : k = bigpre.length) (hn : n = mid.length) :
    sliceB D k n = mid := by
  subst hd; subst hk; subst hn
  exact sliceB_append bigpre mid rest2

/-- `parseName` at a stated offset over an encoded well-formed name. -/
theorem parseName_at (n : GoStr) (pre2 post2 D : List Nat) (k f : Nat)
    (hd : D = pre2 ++ (encodeName n ++ post2)) (hk : k = pre2.length)
    (h : wfName n) (hf : (splitDots n).length + 1 ≤ f) :
    parseName f D [] [] k = .ok (n, k + (encodeName n).length) := by
  subst hd; subst hk
  exact parseName_encodeName n pre2 post2 f h hf

/-- Parsing the bytes `writeResourceRecord` emitted for a well-formed
record of a supported type yields a record of the same type whose parsed
payload matches, with the cursor exactly past the record. -/
theorem parseRR_of_rrBytes (rr : ResourceRecord) (pre post : List Nat) (f : Nat)
    (hwf : wfRecord rr)
    (h7 : rr.rtype = TypeA ∨ rr.rtype = TypeNS ∨ rr.rtype = TypeCNAME ∨ rr.rtype = TypeSOA ∨
          rr.rtype = TypeMX ∨ rr.rtype = TypeTXT ∨ rr.rtype = TypeAAAA)
    (hf : (splitDots rr.name).length + (splitDots rr.target).length + 2 ≤ f) :
    ∃ rr1 : ResourceRecord,
      parseResourceRecordGo f (pre ++ (rrBytes rr ++ post)) pre.length
        = .ok (rr1, pre.length + (rrBytes rr).length)
      ∧ rr1.rtype = rr.rtype ∧ payloadMatches rr rr1 := by
  obtain ⟨hnwf, ht16, hc16, httl, hrdlt, hA4, hA16, htgtwf, hp16, htxt255⟩ := hwf
  have hdata0 : pre ++ (rrBytes rr ++ post)
      = pre ++ (encodeName rr.name ++ (u16be rr.rtype ++ (u16be rr.rclass ++
          (u32be rr.ttl ++ (u16be (buildRData rr).length ++ (buildRData rr ++ post)))))) := by
    simp [rrBytes, List.append_assoc]
  rw [hdata0]
  set D := pre ++ (encodeName rr.name ++ (u16be rr.rtype ++ (u16be rr.rclass ++
      (u32be rr.ttl ++ (u16be (buildRData rr).length ++ (buildRData rr ++ post)))))) with hDdef
  have hDlen : D.length = pre.length + (encodeName rr.name).length + 10
      + (buildRData rr).length + post.length := by
    rw [hDdef]; simp [u16be, u32be]; omega
  have hname : parseName f D [] [] pre.length
      = .ok (rr.name, pre.length + (encodeName rr.name).length) :=
    parseName_at rr.name pre _ D pre.length f hDdef rfl hnwf (by omega)
  have hrt : readU16 D (pre.length + (encodeName rr.name).length) = rr.rtype :=
    readU16_at (pre ++ encodeName rr.name)
      (u16be rr.rclass ++ (u32be rr.ttl ++ (u16be (buildRData rr).length ++ (buildRData rr ++ post))))
      D rr.rtype _
      (by rw [hDdef]; simp [List.append_assoc]) (by simp) ht16
  have hrc : readU16 D (pre.length + (encodeName rr.name).length + 2) = rr.rclass :=
    readU16_at (pre ++ encodeName rr.name ++ u16be rr.rtype)
      (u32be rr.ttl ++ (u16be (buildRData rr).length ++ (buildRData rr ++ post)))
      D rr.rclass _
      (by rw [hDdef]; simp [List.append_assoc]) (by simp [u16be]; omega) hc16
  have httlv : readU32 D (pre.length + (encodeName rr.name).length + 4) = rr.ttl :=
    readU32_at (pre ++ encodeName rr.name ++ u16be rr.rtype ++ u16be rr.rclass)
      (u16be (buildRData rr).length ++ (buildRData rr ++ post)) D rr.ttl _
      (by rw [hDdef]; simp [List.append_assoc]) (by simp [u16be]; omega) httl
  have hrdv : readU16 D (pre.length + (encodeName rr.name).length + 8)
      = (buildRData rr).length :=
    readU16_at (pre ++ encodeName rr.name ++ u16be rr.rtype ++ u16be rr.rclass ++ u32be rr.ttl)
      (buildRData rr ++ post) D (buildRData rr).length _
      (by rw [hDdef]; simp [List.append_assoc]) (by simp [u16be, u32be]; omega) hrdlt
  have hslice : sliceB D (pre.length + (encodeName rr.name).length + 10)
      (buildRData rr).length = buildRData rr :=
    sliceB_at (pre ++ encodeName rr.name ++ u16be rr.rtype ++ u16be rr.rclass ++ u32be rr.ttl
        ++ u16be (buildRData rr).length) (buildRData rr) post D _ _
      (by rw [hDdef]; simp [List.append_assoc]) (by simp [u16be, u32be]; omega) rfl
  have hEnd : pre.length + (rrBytes rr).length
      = pre.length + (encodeName rr.name).length + 10 + (buildRData rr).length := by
    simp [rrBytes, u16be, u32be]; omega
  simp only [parseResourceRecordGo]
  rw [hname]
  dsimp only
  rw [if_neg (by rw [hDlen]; omega)]
  rw [hrt, hrc, httlv, hrdv]
  rw [if_neg (by rw [hDlen]; omega)]
  rw [hslice, hEnd]
  rcases h7 with hA | hNS | hCN | hSOA | hMX | hTXT | hAAAA
  · -- A record
    have hRD : buildRData rr = rr.address := by
      rw [buildRData, if_pos hA, ipTo4, if_pos (hA4 hA)]
    rw [if_pos hA, hRD, if_pos (hA4 hA)]
    refine ⟨_, rfl, rfl, ?_⟩
    simp [payloadMatches, hA, TypeA, TypeAAAA, TypeCNAME, TypeNS, TypeMX, TypeTXT, TypeSOA]
  · -- NS record
    have hRD : buildRData rr = encodeName rr.target := by
      rw [buildRData, if_neg (by rw [hNS]; decide), if_neg (by rw [hNS]; decide),
        if_pos (Or.inr hNS)]
    have hpn : parseName f D [] [] (pre.length + (encodeName rr.name).length + 10)
        = .ok (rr.target, pre.length + (encodeName rr.name).length + 10
            + (encodeName rr.target).length) :=
      parseName_at rr.target
        (pre ++ encodeName rr.name ++ u16be rr.rtype ++ u16be rr.rclass ++ u32be rr.ttl
          ++ u16be (buildRData rr).length) post D _ f
        (by rw [hDdef]; conv_rhs => rw [← hRD]
            simp [List.append_assoc])
        (by simp [u16be, u32be]; omega)
        (htgtwf (Or.inr (Or.inl hNS))) (by omega)
    rw [if_neg (by rw [hNS]; decide), if_neg (by rw [hNS]; decide), if_pos (Or.inr hNS), hpn]
    dsimp only
    refine ⟨_, rfl, rfl, ?_⟩
    simp [payloadMatches, hNS, TypeA, TypeAAAA, TypeCNAME, TypeNS, TypeMX, TypeTXT, TypeSOA]
  · -- CNAME record
    have hRD : buildRData rr = encodeName rr.target := by
      rw [buildRData, if_neg (by rw [hCN]; decide), if_neg (by rw [hCN]; decide),
        if_pos (Or.inl hCN)]
    have hpn : parseName f D [] [] (pre.length + (encodeName rr.name).length + 10)
        = .ok (rr.target, pre.length + (encodeName rr.name).length + 10
            + (encodeName rr.target).length) :=
      parseName_at rr.target
        (pre ++ encodeName rr.name ++ u16be rr.rtype ++ u16be rr.rclass ++ u32be rr.ttl
          ++ u16be (buildRData rr).length) post D _ f
        (by rw [hDdef]; conv_rhs => rw [← hRD]
            simp [List.append_assoc])
        (by simp [u16be, u32be]; omega)
        (htgtwf (Or.inl hCN)) (by omega)
    rw [if_neg (by rw [hCN]; decide), if_neg (by rw [hCN]; decide), if_pos (Or.inl hCN), hpn]
    dsimp only
    refine ⟨_, rfl, rfl, ?_⟩
    simp [payloadMatches, hCN, TypeA, TypeAAAA, TypeCNAME, TypeNS, TypeMX, TypeTXT, TypeSOA]
  · -- SOA record: no type-specific parsing, RDATA kept opaque
    rw [if_neg (by rw [hSOA]; decide), if_neg (by rw [hSOA]; decide),
      if_neg (by rw [hSOA]; decide), if_neg (by rw [hSOA]; decide),
      if_neg (by rw [hSOA]; decide)]
    refine ⟨_, rfl, rfl, ?_⟩
    simp only [payloadMatches, buildRData]
    refine ⟨?_, ?_, ?_, ?_, ?_⟩
    · intro h; exfalso; rw [hSOA] at h; rcases h with h | h <;> simp [TypeSOA, TypeA, TypeAAAA] at h
    · intro h; exfalso; rw [hSOA] at h; rcases h with h | h <;> simp [TypeSOA, TypeCNAME, TypeNS] at h
    · intro h; exfalso; rw [hSOA] at h; simp [TypeSOA, TypeMX] at h
    · intro h; exfalso; rw [hSOA] at h; simp [TypeSOA, TypeTXT] at h
    · intro _
      constructor
      · trivial
      · rw [if_neg (by rw [hSOA]; decide), if_neg (by rw [hSOA]; decide),
          if_neg (by rw [hSOA]; decide), if_neg (by rw [hSOA]; decide),
          if_neg (by rw [hSOA]; decide), if_pos hSOA]
  · -- MX record
    have hRD : buildRData rr = u16be rr.priority ++ encodeName rr.target := by
      rw [buildRData, if_neg (by rw [hMX]; decide), if_neg (by rw [hMX]; decide),
        if_neg (by rw [hMX]; decide), if_pos hMX]
    have hpri : readU16 D (pre.length + (encodeName rr.name).length + 10) = rr.priority :=
      readU16_at
        (pre ++ encodeName rr.name ++ u16be rr.rtype ++ u16be rr.rclass ++ u32be rr.ttl
          ++ u16be (buildRData rr).length) (encodeName rr.target ++ post) D rr.priority _
        (by rw [hDdef, hRD]; simp [List.append_assoc])
        (by simp [u16be, u32be]; omega) (hp16 hMX)
    have hpn : parseName f D [] [] (pre.length + (encodeName rr.name).length + 10 + 2)
        = .ok (rr.target, pre.length + (encodeName rr.name).length + 10 + 2
            + (encodeName rr.target).length) :=
      parseName_at rr.target
        (pre ++ encodeName rr.name ++ u16be rr.rtype ++ u16be rr.rclass ++ u32be rr.ttl
          ++ u16be (buildRData rr).length ++ u16be rr.priority) post D _ f
        (by rw [hDdef, hRD]; simp [List.append_assoc])
        (by simp [u16be, u32be]; omega)
        (htgtwf (Or.inr (Or.inr hMX))) (by omega)
    rw [if_neg (by rw [hMX]; decide), if_neg (by rw [hMX]; decide),
      if_neg (by rw [hMX]; decide), if_pos hMX,
      if_pos (by rw [hRD]; simp [u16be])]
    rw [hpri, hpn]
    dsimp only
    refine ⟨_, rfl, rfl, ?_⟩
    simp [payloadMatches, hMX, TypeA, TypeAAAA, TypeCNAME, TypeNS, TypeMX, TypeTXT, TypeSOA]
  · -- TXT record
    have hRD : buildRData rr = encodeTXT rr.text := by
      rw [buildRData, if_neg (by rw [hTXT]; decide), if_neg (by rw [hTXT]; decide),
        if_neg (by rw [hTXT]; decide), if_neg (by rw [hTXT]; decide), if_pos hTXT]
    have htxtv : parseTXT (buildRData rr) = rr.text := by
      rw [hRD]; exact parseTXT_encodeTXT rr.text (htxt255 hTXT)
    rw [if_neg (by rw [hTXT]; decide), if_neg (by rw [hTXT]; decide),
      if_neg (by rw [hTXT]; decide), if_neg (by rw [hTXT]; decide), if_pos hTXT, htxtv]
    refine ⟨_, rfl, rfl, ?_⟩
    simp [payloadMatches, hTXT, TypeA, TypeAAAA, TypeCNAME, TypeNS, TypeMX, TypeTXT, TypeSOA]
  · -- AAAA record
    have hRD : buildRData rr = rr.address := by
      rw [buildRData, if_neg (by rw [hAAAA]; decide), if_pos hAAAA, ipTo16,
        if_pos (hA16 hAAAA)]
    rw [if_neg (by rw [hAAAA]; decide), if_pos hAAAA, hRD, if_pos (hA16 hAAAA)]
    refine ⟨_, rfl, rfl, ?_⟩
    simp [payloadMatches, hAAAA, TypeA, TypeAAAA, TypeCNAME, TypeNS, TypeMX, TypeTXT, TypeSOA]

/-- C2 (amended): for every well-formed record of a supported type,
building a response holding that single record and parsing the bytes back
returns exactly one answer of the same type whose payload matches —
parsed-field equality for A, AAAA, CNAME, NS, MX (preference and target)
and TXT, and byte-level RDATA equality for SOA, whose structured fields
the parser never populates (`SOAData` comes back nil). -/
theorem C2_build_parse_roundtrip (rr : ResourceRecord) (f : Nat) (hwf : wfRecord rr)
    (h7 : rr.rtype = TypeA ∨ rr.rtype = TypeNS ∨ rr.rtype = TypeCNAME ∨ rr.rtype = TypeSOA ∨
          rr.rtype = TypeMX ∨ rr.rtype = TypeTXT ∨ rr.rtype = TypeAAAA)
    (hf : (splitDots rr.name).length + (splitDots rr.target).length + 2 ≤ f) :
    roundTripOK rr f := by
  have hout : BuildResponse emptyQuery [rr] []
      = headerBytes (responseHeader emptyQuery [rr] []) ++ (rrBytes rr ++ []) := by
    simp [BuildResponse, emptyQuery]
  have hhdr : headerBytes (responseHeader emptyQuery [rr] [])
      = [0, 0, 132, 0, 0, 0, 0, 1, 0, 0, 0, 0] := by
    simp only [headerBytes, responseHeader, emptyQuery, u16be, List.length_cons,
      List.length_nil]
    decide
  rw [roundTripOK, hout, hhdr]
  have hlen1 : (([0, 0, 132, 0, 0, 0, 0, 1, 0, 0, 0, 0] : List Nat)
      ++ (rrBytes rr ++ [])).length = 12 + (rrBytes rr).length := by
    simp only [List.length_append, List.length_cons, List.length_nil, List.append_nil]
  have hhead : parseHeaderGo ([0, 0, 132, 0, 0, 0, 0, 1, 0, 0, 0, 0] ++ (rrBytes rr ++ []))
      = .ok { iD := 0, flags := 33792, qdCount := 0, anCount := 1, nsCount := 0, arCount := 0 } := by
    rw [parseHeaderGo, if_neg (by rw [hlen1]; omega)]
    simp only [readU16, byteAt, List.cons_append, List.getD_cons_zero, List.getD_cons_succ]
  obtain ⟨rr1, hrr1, hty, hpay⟩ :=
    parseRR_of_rrBytes rr [0, 0, 132, 0, 0, 0, 0, 1, 0, 0, 0, 0] [] f hwf h7 hf
  simp only [List.length_cons, List.length_nil] at hrr1
  simp only [ParseF]
  rw [hhead]
  dsimp only
  simp only [parseListGo]
  rw [hrr1]
  dsimp only
  exact ⟨_, rr1, rfl, rfl, hty, hpay⟩

/-- C2 (counterexample): the claim as stated requires structural equality
for SOA, but the parser has no SOA case: the round-tripped SOA answer
carries `SOAData = nil` while the built record's payload was non-nil. -/
theorem C2_soa_payload_lost :
    (match ParseF 100 (BuildResponse emptyQuery [soaRec] []) with
     | .ok m => m.answers.headI.soaData
     | _ => soaRec.soaData) = none ∧ soaRec.soaData ≠ none := by decide

/-- C2 witness: the CNAME record round trip at fuel 50. -/
theorem C2_build_parse_roundtrip_witness : roundTripOK cnWitnessRec 50 :=
  C2_build_parse_roundtrip cnWitnessRec 50 (by decide) (by decide) (by decide)

end DnsGo
